import Mathlib

/-!
Shallow embedding of the `yep` archive subsystem of yoyoengine
(`src/yep/yep.c`): a packer that walks a directory into a pack list and
writes a two-phase archive file, and a reader that opens an archive
(through a process-wide single-handle cache) and extracts entries by name.

Files are modelled as lists of byte values (`List Nat`, each < 256 in
well-formed inputs).  The zlib deflate/inflate collaborator is modelled
by an abstract `ZlibModel`; its contract (`ZlibModel.valid`) states the
guarantees zlib provides.  Machine integers are `Nat` with explicit
`% 2^32` (`u32`) where the C code truncates.
-/

namespace Yep

/-- Modelled from the spec: `yep.h` is not in the repository snapshot.
The spec fixes the supported format version as a single byte that readers
must match exactly; its concrete value is irrelevant to every claim. -/
def YEP_CURRENT_FORMAT_VERSION : Nat := 1

/-- Modelled from the spec: record width 64 + 4 + 4 + 1 + 4 + 1 = 78 bytes. -/
def YEP_HEADER_SIZE_BYTES : Nat := 78

/-- Modelled from the spec: `compression_kind` 0 = NONE. -/
def YEP_COMPRESSION_NONE : Nat := 0

/-- Modelled from the spec: `compression_kind` 1 = DEFLATE (zlib). -/
def YEP_COMPRESSION_ZLIB : Nat := 1

/-- Modelled from the spec: `kind_tag` is an opaque numeric classification;
the writer stamps every entry with the MISC tag.  Its value is advisory
and irrelevant to every claim. -/
def YEP_DATATYPE_MISC : Nat := 0

/-- Truncation to a 32-bit unsigned value (`uint32_t` semantics). -/
def u32 (n : Nat) : Nat := n % 4294967296

/-- Little-endian encoding of a 16-bit field (as `fwrite` of a `uint16_t`
emits it; values ≥ 2^16 are truncated exactly as the C cast does). -/
def le16 (n : Nat) : List Nat := [n % 256, n / 256 % 256]

/-- Little-endian encoding of a 32-bit field. -/
def le32 (n : Nat) : List Nat :=
  [n % 256, n / 256 % 256, n / 65536 % 256, n / 16777216 % 256]

/-- Decoding of a little-endian byte list, as `fread` into an unsigned
integer recovers it. -/
def deLE (bs : List Nat) : Nat := bs.foldr (fun b acc => b + 256 * acc) 0

/-- `fread` of `n` bytes at absolute position `off` (reads past end of
file yield the available bytes; all reads in the claims stay in range). -/
def readBytes (f : List Nat) (off n : Nat) : List Nat := (f.drop off).take n

/-- `fseek` to `off` followed by `fwrite` of `data`: overwrites in place,
extends the file when writing at or past the end (a gap, never created by
this program, would read back as zeros). -/
def writeAt (file : List Nat) (off : Nat) (data : List Nat) : List Nat :=
  let padded := file ++ List.replicate (off - file.length) 0
  padded.take off ++ data ++ padded.drop (off + data.length)

/-- The C string stored in a fixed-width slot: bytes up to the first
terminator, as `strcmp` sees them. -/
def cstr (bs : List Nat) : List Nat := bs.takeWhile (fun b => b ≠ 0)

/-- The 64-byte name slot of a pack node: `memset(name, 0, 64)` followed by
`sprintf(name, "%s", relative_path)` leaves the name bytes then zeros. -/
def nameSlot64 (name : List Nat) : List Nat :=
  name ++ List.replicate (64 - name.length) 0

/-- One node of the pack list (`struct yep_header_node`): the relative
name that goes in the 64-byte slot and the bytes of the source file that
`fullpath` designates (reading the file is modelled by carrying its
content). -/
structure PackNode where
  name : List Nat
  content : List Nat
deriving DecidableEq, Repr

/-- Abstract model of the zlib collaborator.  `deflate` is the bytes a
single-shot `deflate(..., Z_FINISH)` pass emits; `inflateRun input cap`
is the bytes a single-shot `inflate(..., Z_FINISH)` pass produces into a
buffer of `cap` bytes together with whether it returned `Z_STREAM_END`. -/
structure ZlibModel where
  deflateInitOk : Bool
  deflate : List Nat → List Nat
  inflateInitOk : Bool
  inflateRun : List Nat → Nat → List Nat × Bool

/-- The contract zlib provides: init succeeds, a deflate of `d` fits the
`d.length + d.length / 10 + 12` buffer the C code allocates, and inflating
a deflate stream into a buffer of exactly the original size reproduces the
original bytes and reaches `Z_STREAM_END`. -/
def ZlibModel.valid (z : ZlibModel) : Prop :=
  z.deflateInitOk = true ∧ z.inflateInitOk = true ∧
  (∀ d, (z.deflate d).length ≤ d.length + d.length / 10 + 12) ∧
  (∀ d, z.inflateRun (z.deflate d) d.length = (d, true))

/-- A trivial codec satisfying the zlib contract (identity coding),
used to instantiate theorems at concrete inputs. -/
def idZlib : ZlibModel :=
  { deflateInitOk := true
    deflate := fun d => d
    inflateInitOk := true
    inflateRun := fun input cap => (input.take cap, true) }

theorem idZlib_valid : idZlib.valid := by
  refine ⟨rfl, rfl, fun d => ?_, fun d => ?_⟩
  · simp only [idZlib]
    omega
  · simp [idZlib]

/-- `compress_data` (yep.c:327): single-shot deflate into a buffer of
`input_size + input_size/10 + 12` bytes; fails (`-1`) when `deflateInit`
fails or the pass does not end with `Z_STREAM_END` (in particular when the
output does not fit the buffer).  On success returns the emitted bytes and
`stream.total_out`. -/
def compress_data (z : ZlibModel) (input : List Nat) : Option (List Nat × Nat) :=
  if z.deflateInitOk = false then none
  else
    let cap := input.length + input.length / 10 + 12
    let out := z.deflate input
    if out.length ≤ cap then some (out, out.length) else none

/-- `decompress_data` (yep.c:361): single-shot inflate into a buffer of
exactly `output_size` bytes; fails (`-1`) when `inflateInit` fails, when
the pass does not end with `Z_STREAM_END`, or when `stream.total_out`
differs from `output_size`.  On success the output buffer holds exactly
the produced bytes. -/
def decompress_data (z : ZlibModel) (input : List Nat) (output_size : Nat) :
    Option (List Nat) :=
  if z.inflateInitOk = false then none
  else
    let r := z.inflateRun input output_size
    if r.2 = false then none
    else if output_size ≠ r.1.length then none
    else some r.1

/-!  Directory walker (`_ye_walk_directory`, yep.c:259). -/

/-- One directory entry as `readdir`/`stat` classify it: a regular file
(with its content), a subdirectory (with its entries in `readdir` order),
or any other kind (symlink, device, ...), which the walker ignores. -/
inductive DirEnt where
  | file (name : List Nat) (content : List Nat) : DirEnt
  | dir (name : List Nat) (entries : List DirEnt) : DirEnt
  | other (name : List Nat) : DirEnt

/-- Relative path of entry `s` inside the directory whose own relative
path from the pack root is `p`: the C code forms
`directory_path ++ "/" ++ d_name` and strips `root ++ "/"`, which joins
the segments with the separator byte 47. -/
def relOf (p s : List Nat) : List Nat :=
  if p = [] then s else p ++ 47 :: s

/-- `_ye_walk_directory` (yep.c:259): walks entries in order, prepending
every accepted regular file to the pack list `acc`; a regular file whose
relative path plus terminator exceeds the 64-byte name slot is skipped;
subdirectories other than `"."` and `".."` are recursed into. -/
def walkList (p : List Nat) (es : List DirEnt) (acc : List PackNode) :
    List PackNode :=
  match es with
  | [] => acc
  | DirEnt.file s c :: rest =>
      let rel := relOf p s
      if rel.length + 1 > 64 then walkList p rest acc
      else walkList p rest ({ name := rel, content := c } :: acc)
  | DirEnt.dir s sub :: rest =>
      if s = [46] ∨ s = [46, 46] then walkList p rest acc
      else walkList p rest (walkList (relOf p s) sub acc)
  | DirEnt.other _ :: rest => walkList p rest acc

/-- Specification-side companion of `walkList`: every regular file the
walk encounters (same traversal, same relative paths, discovery order,
no name-length filter). -/
def discList (p : List Nat) (es : List DirEnt) : List PackNode :=
  match es with
  | [] => []
  | DirEnt.file s c :: rest =>
      { name := relOf p s, content := c } :: discList p rest
  | DirEnt.dir s sub :: rest =>
      (if s = [46] ∨ s = [46, 46] then [] else discList (relOf p s) sub)
        ++ discList p rest
  | DirEnt.other _ :: rest => discList p rest

/-!  Archive writer (`yep_pack_directory`, `write_pack_file`,
`update_header`, yep.c:439-602). -/

/-- One phase-1 skeleton record: the 64-byte name slot followed by zeroed
`offset`, `size`, `compression_type`, `uncompressed_size`, `data_type`
placeholders (yep.c:569-596). -/
def skeletonRecord (name : List Nat) : List Nat :=
  nameSlot64 name ++ le32 0 ++ le32 0 ++ [0] ++ le32 0 ++ [0]

/-- Phase 1 of `yep_pack_directory` (yep.c:553-596): version byte, 2-byte
entry count, then one skeleton record per pack-list node in list order. -/
def packSkeleton (nodes : List PackNode) : List Nat :=
  [YEP_CURRENT_FORMAT_VERSION] ++ le16 nodes.length
    ++ (nodes.map (fun n => skeletonRecord n.name)).flatten

/-- Loop body of `write_pack_file` (yep.c:467-524), one iteration per
pack-list node: read the source file (`data_size` is `ftell` truncated to
`uint32_t`, the buffer holds that many bytes), pick zlib compression when
`data_size > 256`, compress (the C code ignores `compress_data`'s return
value; on failure the data pointer is uninitialized — undefined behavior,
modelled as writing the uncompressed bytes), write the payload at
`data_end` (`write_data_to_pack`), patch this entry's header fields at
`3 + current_entry * 78 + 64` (`update_header`), and advance `data_end`. -/
def wpfGo (z : ZlibModel) :
    List PackNode → List Nat → Nat → Nat → List Nat
  | [], file, _, _ => file
  | n :: rest, file, data_end, current_entry =>
      let data_size := u32 n.content.length
      let uncompressed_size := data_size
      let data := n.content.take data_size
      let compression_type :=
        if data_size > 256 then YEP_COMPRESSION_ZLIB else YEP_COMPRESSION_NONE
      let step :=
        if compression_type = YEP_COMPRESSION_ZLIB then
          match compress_data z data with
          | some (cd, csz) => (cd, u32 csz)
          | none => (data, data_size)
        else (data, data_size)
      let file1 := writeAt file data_end (step.1.take step.2)
      let file2 := writeAt file1 (3 + current_entry * YEP_HEADER_SIZE_BYTES + 64)
        (le32 data_end ++ le32 step.2 ++ [compression_type]
          ++ le32 uncompressed_size ++ [YEP_DATATYPE_MISC])
      wpfGo z rest file2 (u32 (data_end + step.2)) (current_entry + 1)

/-- `write_pack_file` (yep.c:456): phase 2 over the whole pack list,
starting the write cursor at `data_start = 3 + entry_count * 78`. -/
def write_pack_file (z : ZlibModel) (nodes : List PackNode)
    (pack_file : List Nat) : List Nat :=
  wpfGo z nodes pack_file (u32 (3 + nodes.length * YEP_HEADER_SIZE_BYTES)) 0

/-- Both phases of the writer on a given pack list: the skeleton written
by `yep_pack_directory` followed by `write_pack_file`. -/
def packArchive (z : ZlibModel) (nodes : List PackNode) : List Nat :=
  write_pack_file z nodes (packSkeleton nodes)

/-- `yep_pack_directory` (yep.c:529): walk the directory into the pack
list, then write the archive. -/
def yep_pack_directory (z : ZlibModel) (tree : List DirEnt) : List Nat :=
  packArchive z (walkList [] tree [])

/-!  Specification-side closed form of the written archive. -/

/-- The payload bytes stored for a source file of content `c`:
deflate-compressed when the raw size exceeds the 256-byte threshold,
raw otherwise. -/
def storedOf (z : ZlibModel) (c : List Nat) : List Nat :=
  if c.length > 256 then z.deflate c else c

/-- The compression kind recorded for a source file of content `c`. -/
def ckOf (c : List Nat) : Nat :=
  if c.length > 256 then YEP_COMPRESSION_ZLIB else YEP_COMPRESSION_NONE

/-- The stored-payload lengths of a pack list, in order. -/
def storedLens (z : ZlibModel) (nodes : List PackNode) : List Nat :=
  nodes.map fun n => (storedOf z n.content).length

/-- The fully patched header records of a pack list, given the running
payload cursor `base`: each record is the unchanged name slot followed by
the patched `offset`, `stored_size`, `compression_kind`, `original_size`
and `kind_tag` fields. -/
def finalRecords (z : ZlibModel) (base : Nat) : List PackNode → List (List Nat)
  | [] => []
  | n :: rest =>
      let d := storedOf z n.content
      (nameSlot64 n.name ++ le32 base ++ le32 d.length ++ [ckOf n.content]
          ++ le32 n.content.length ++ [YEP_DATATYPE_MISC])
        :: finalRecords z (base + d.length) rest

/-- Hypotheses under which the writer's arithmetic stays inside 32 bits:
every source file and the whole archive fit `uint32_t`. -/
def sizesOk (z : ZlibModel) (nodes : List PackNode) : Prop :=
  (∀ n ∈ nodes, n.content.length < 4294967296) ∧
  3 + 78 * nodes.length + (storedLens z nodes).sum < 4294967296

/-- Start of the payload region: `3 + entry_count * 78`. -/
def dataStart (count : Nat) : Nat := 3 + 78 * count

/-- The payload offset recorded for entry `i`: the payload region start
plus the stored lengths of all earlier entries. -/
def recOffset (z : ZlibModel) (nodes : List PackNode) (i : Nat) : Nat :=
  dataStart nodes.length + ((storedLens z nodes).take i).sum

/-- The payload region of the written archive: every entry's stored bytes
concatenated in list order. -/
def payloadsOf (z : ZlibModel) (nodes : List PackNode) : List Nat :=
  (nodes.map fun m => storedOf z m.content).flatten

/-!  Archive reader (`_yep_seek_header`, `yep_extract_data`,
yep.c:79-189) and the open-archive cache (`_yep_open_file`,
`_yep_close_file`, yep.c:31-74). -/

/-- The header fields `_yep_seek_header` reads out for one record:
the raw 64-byte name slot and the five fixed-width fields. -/
structure SeekOut where
  name : List Nat
  offset : Nat
  size : Nat
  compression_type : Nat
  uncompressed_size : Nat
  data_type : Nat
deriving DecidableEq, Repr

/-- The record the `i`-th loop iteration of `_yep_seek_header` reads:
five sequential `fread`s starting at byte `3 + i * 78`. -/
def recordAt (file : List Nat) (i : Nat) : SeekOut :=
  let base := 3 + i * YEP_HEADER_SIZE_BYTES
  { name := readBytes file base 64
    offset := deLE (readBytes file (base + 64) 4)
    size := deLE (readBytes file (base + 68) 4)
    compression_type := deLE (readBytes file (base + 72) 1)
    uncompressed_size := deLE (readBytes file (base + 73) 4)
    data_type := deLE (readBytes file (base + 77) 1) }

/-- The name the scan loop compares at record `i`: the stored 64-byte
slot read as a C string. -/
def recName (file : List Nat) (i : Nat) : List Nat :=
  cstr (readBytes file (3 + i * YEP_HEADER_SIZE_BYTES) 64)

/-- The scan loop of `_yep_seek_header` (yep.c:87-114): `fuel` remaining
iterations, current record index `i`; returns the first record whose
stored name `strcmp`-equals the requested handle. -/
def seekHeaderAux (file handle : List Nat) : Nat → Nat → Option SeekOut
  | 0, _ => none
  | fuel + 1, i =>
      let h := recordAt file i
      if cstr h.name = handle then some h
      else seekHeaderAux file handle fuel (i + 1)

/-- `_yep_seek_header` (yep.c:79): seek to byte 3 and linearly scan
`entry_count` records. -/
def _yep_seek_header (file : List Nat) (entry_count : Nat)
    (handle : List Nat) : Option SeekOut :=
  seekHeaderAux file handle entry_count 0

/-- The filesystem as the reader sees it: path (string bytes) to file
content, `none` when `fopen` fails. -/
def FS : Type := List Nat → Option (List Nat)

/-- The process-wide reader state: the four globals of yep.c:24-27 plus
the operating system's table of streams this subsystem has opened and not
yet closed (`openHandles` pairs each live `FILE*` with its file's bytes;
`nextHandle` generates fresh handles). -/
structure YepState where
  yep_file_path : Option (List Nat)
  yep_file : Option Nat
  file_entry_count : Nat
  file_version_number : Nat
  openHandles : List (Nat × List Nat)
  nextHandle : Nat
deriving DecidableEq, Repr

/-- The fresh state after `yep_initialize`: no archive open. -/
def YepState.init : YepState :=
  { yep_file_path := none, yep_file := none, file_entry_count := 0
    file_version_number := 0, openHandles := [], nextHandle := 0 }

/-- Content behind a live handle in the OS stream table. -/
def handleContent (hs : List (Nat × List Nat)) (hid : Nat) :
    Option (List Nat) :=
  (hs.find? fun p => p.1 == hid).map Prod.snd

/-- `_yep_open_file` (yep.c:31): if the cached path string equals the
requested one, report success immediately (reusing the cached handle and
counters).  Otherwise `fopen` the file — on failure the global `yep_file`
is overwritten with the null stream (the previous stream, if any, is
neither closed nor remembered) and the function fails.  On success the
old path string is replaced, the version byte and the 2-byte entry count
are read (a file shorter than the read leaves the corresponding global
unchanged, as a failed `fread` stores nothing), and the open fails when
the version differs from the supported one — with every global already
updated and the stream left open. -/
def _yep_open_file (fs : FS) (st : YepState) (file : List Nat) :
    Bool × YepState :=
  if st.yep_file_path = some file then (true, st)
  else
    match fs file with
    | none => (false, { st with yep_file := none })
    | some content =>
        let hid := st.nextHandle
        let ver := if content.length ≥ 1 then content.headD 0
                   else st.file_version_number
        let cnt := if content.length ≥ 3 then deLE (readBytes content 1 2)
                   else st.file_entry_count
        let st' : YepState :=
          { yep_file_path := some file
            yep_file := some hid
            file_entry_count := cnt
            file_version_number := ver
            openHandles := st.openHandles ++ [(hid, content)]
            nextHandle := hid + 1 }
        if ver ≠ YEP_CURRENT_FORMAT_VERSION then (false, st') else (true, st')

/-- `_yep_close_file` (yep.c:63): if a stream is cached, close it and
zero the counters.  The path string is freed but the global pointer is
not cleared (it dangles); value-wise it is unchanged here. -/
def _yep_close_file (st : YepState) : YepState :=
  match st.yep_file with
  | none => st
  | some hid =>
      { st with yep_file := none
                openHandles := st.openHandles.filter fun p => ¬ p.1 = hid
                file_entry_count := 0
                file_version_number := 0 }

/-- Observable outcome of `yep_extract_data`: a returned pointer
(`some` data or the null pointer), a `exit(1)` process abort, or
undefined behavior (operating on a null `FILE*`). -/
inductive CResult where
  | ret (p : Option (List Nat)) : CResult
  | exited : CResult
  | undef : CResult
deriving DecidableEq, Repr

/-- `yep_extract_data` (yep.c:118): open (through the cache), scan the
header region for the handle using the cached `file_entry_count`, read
`size` bytes at `offset`, and inflate them when the record says
`YEP_COMPRESSION_ZLIB` (a decompression failure calls `exit(1)`); any
other compression kind returns the stored bytes as read. -/
def yep_extract_data (z : ZlibModel) (fs : FS) (st : YepState)
    (file handle : List Nat) : CResult × YepState :=
  match _yep_open_file fs st file with
  | (false, st') => (CResult.ret none, st')
  | (true, st') =>
      match st'.yep_file with
      | none => (CResult.undef, st')
      | some hid =>
          match handleContent st'.openHandles hid with
          | none => (CResult.undef, st')
          | some content =>
              match _yep_seek_header content st'.file_entry_count handle with
              | none => (CResult.ret none, st')
              | some h =>
                  let data := readBytes content h.offset h.size
                  if h.compression_type = YEP_COMPRESSION_ZLIB then
                    match decompress_data z data h.uncompressed_size with
                    | none => (CResult.exited, st')
                    | some d => (CResult.ret (some d), st')
                  else (CResult.ret (some data), st')

/-!  Helper lemmas: byte encodings, slot strings, file writes. -/

theorem u32_eq {n : Nat} (h : n < 4294967296) : u32 n = n :=
  Nat.mod_eq_of_lt h

theorem deLE_le32 {n : Nat} (h : n < 4294967296) : deLE (le32 n) = n := by
  simp only [deLE, le32, List.foldr]
  omega

theorem deLE_le16 {n : Nat} (h : n < 65536) : deLE (le16 n) = n := by
  simp only [deLE, le16, List.foldr]
  omega

theorem le32_length (n : Nat) : (le32 n).length = 4 := rfl

theorem le16_length (n : Nat) : (le16 n).length = 2 := rfl

theorem nameSlot64_length {name : List Nat} (h : name.length ≤ 64) :
    (nameSlot64 name).length = 64 := by
  simp only [nameSlot64, List.length_append, List.length_replicate]
  omega

theorem cstr_replicate_zero (k : Nat) : cstr (List.replicate k 0) = [] := by
  cases k with
  | zero => rfl
  | succ k => simp [cstr, List.replicate_succ]

theorem cstr_append_zeros {name : List Nat} (h : 0 ∉ name) (k : Nat) :
    cstr (name ++ List.replicate k 0) = name := by
  induction name with
  | nil => simpa using cstr_replicate_zero k
  | cons a t ih =>
      have ha : a ≠ 0 := fun e => h (by simp [e])
      have ht : 0 ∉ t := fun m => h (List.mem_cons_of_mem _ m)
      have hrec := ih ht
      simp only [cstr] at hrec
      simp only [List.cons_append, cstr, List.takeWhile_cons, hrec]
      simp [ha]

theorem cstr_nameSlot64 {name : List Nat} (h : 0 ∉ name) :
    cstr (nameSlot64 name) = name :=
  cstr_append_zeros h _

theorem writeAt_append {file : List Nat} {off : Nat} (h : off = file.length)
    (data : List Nat) : writeAt file off data = file ++ data := by
  subst h
  simp [writeAt, List.drop_eq_nil_of_le]

theorem writeAt_mid (X Y Z data : List Nat) (h : Y.length = data.length) :
    writeAt (X ++ (Y ++ Z)) X.length data = X ++ (data ++ Z) := by
  simp only [writeAt]
  have h1 : X.length - (X ++ (Y ++ Z)).length = 0 := by
    simp only [List.length_append]
    omega
  rw [h1]
  simp only [List.replicate_zero, List.append_nil]
  rw [List.take_left, List.drop_append, ← h, List.drop_left,
    List.append_assoc]

theorem readBytes_at {pre : List Nat} (mid post : List Nat) {off n : Nat}
    (ho : off = pre.length) (hn : n = mid.length) :
    readBytes (pre ++ (mid ++ post)) off n = mid := by
  subst ho hn
  simp only [readBytes, List.drop_left]
  rw [List.take_left]

theorem flatten_drop_const {L : Nat} :
    ∀ {xs : List (List Nat)}, (∀ x ∈ xs, x.length = L) →
      ∀ i, xs.flatten.drop (i * L) = (xs.drop i).flatten := by
  intro xs
  induction xs with
  | nil => intro _ i; simp
  | cons x rest ih =>
      intro h i
      cases i with
      | zero => simp
      | succ j =>
          have hx : x.length = L := h x (by simp)
          have harith : (j + 1) * L = x.length + j * L := by
            rw [hx]; ring
          rw [harith, List.flatten_cons, List.drop_append, List.drop_succ_cons]
          exact ih (fun y hy => h y (by simp [hy])) j

theorem flatten_length_const {L : Nat} {xs : List (List Nat)}
    (h : ∀ x ∈ xs, x.length = L) : xs.flatten.length = xs.length * L := by
  induction xs with
  | nil => simp
  | cons x rest ih =>
      simp only [List.flatten_cons, List.length_append, List.length_cons,
        h x (by simp), ih (fun y hy => h y (by simp [hy]))]
      ring

theorem flatten_drop_sum :
    ∀ (xs : List (List Nat)) (i : Nat),
      xs.flatten.drop (((xs.map List.length).take i).sum) = (xs.drop i).flatten := by
  intro xs
  induction xs with
  | nil => intro i; simp
  | cons x rest ih =>
      intro i
      cases i with
      | zero => simp
      | succ j =>
          simp only [List.map_cons, List.take_succ_cons, List.sum_cons,
            List.flatten_cons, List.drop_append, List.drop_succ_cons]
          exact ih j

/-!  Structure of skeleton and patched records. -/

theorem skeletonRecord_length {name : List Nat} (h : name.length ≤ 63) :
    (skeletonRecord name).length = 78 := by
  have h64 : (nameSlot64 name).length = 64 := nameSlot64_length (by omega)
  simp [skeletonRecord, h64, le32_length]

theorem finalRecords_length (z : ZlibModel) :
    ∀ (nodes : List PackNode) (base : Nat),
      (finalRecords z base nodes).length = nodes.length := by
  intro nodes
  induction nodes with
  | nil => intro base; rfl
  | cons n rest ih => intro base; simp [finalRecords, ih]

theorem finalRecords_rec_length (z : ZlibModel) :
    ∀ (nodes : List PackNode) (base : Nat),
      (∀ n ∈ nodes, n.name.length ≤ 63) →
      ∀ r ∈ finalRecords z base nodes, r.length = 78 := by
  intro nodes
  induction nodes with
  | nil => intro base _ r hr; simp [finalRecords] at hr
  | cons n rest ih =>
      intro base hn r hr
      simp only [finalRecords, List.mem_cons] at hr
      rcases hr with h | h
      · subst h
        have h64 : (nameSlot64 n.name).length = 64 :=
          nameSlot64_length (by have := hn n (by simp); omega)
        simp [h64, le32_length]
      · exact ih _ (fun m hm => hn m (by simp [hm])) r h

/-- One loop iteration of `write_pack_file`, rewritten as the two file
writes it performs: the payload append (`write_data_to_pack`) and the
14-byte header patch (`update_header`), provided the sizes fit 32 bits
and zlib behaves per contract. -/
theorem wpfGo_cons_eq (z : ZlibModel) (hz : z.valid) (n : PackNode)
    (rest : List PackNode) (file : List Nat) (dE i : Nat)
    (hclen : n.content.length < 4294967296)
    (hslen : (storedOf z n.content).length < 4294967296) :
    wpfGo z (n :: rest) file dE i
      = wpfGo z rest
          (writeAt (writeAt file dE (storedOf z n.content))
            (3 + i * YEP_HEADER_SIZE_BYTES + 64)
            (le32 dE ++ le32 (storedOf z n.content).length ++ [ckOf n.content]
              ++ le32 n.content.length ++ [YEP_DATATYPE_MISC]))
          (u32 (dE + (storedOf z n.content).length)) (i + 1) := by
  obtain ⟨hdi, hii, hfit, hinv⟩ := hz
  by_cases hth : n.content.length > 256
  · have hstored : storedOf z n.content = z.deflate n.content := by
      simp [storedOf, hth]
    have hck : ckOf n.content = YEP_COMPRESSION_ZLIB := by
      simp [ckOf, hth]
    simp only [wpfGo, u32_eq hclen, List.take_length, hth, if_pos,
      YEP_COMPRESSION_ZLIB, YEP_COMPRESSION_NONE, compress_data, hdi,
      Bool.true_eq_false, if_false, hfit n.content, if_true, hstored, hck]
    rw [u32_eq (by rw [← hstored]; exact hslen), List.take_length]
  · have hstored : storedOf z n.content = n.content := by
      simp [storedOf, hth]
    have hck : ckOf n.content = YEP_COMPRESSION_NONE := by
      simp [ckOf, hth]
    simp only [wpfGo, u32_eq hclen, List.take_length, hth,
      YEP_COMPRESSION_ZLIB, YEP_COMPRESSION_NONE, if_false, hstored, hck]
    simp [hstored, List.take_length]

theorem writeAt_mid' {file : List Nat} {off : Nat} (X Y Z data : List Nat)
    (hfile : file = X ++ (Y ++ Z)) (hoff : off = X.length)
    (h : Y.length = data.length) :
    writeAt file off data = X ++ (data ++ Z) := by
  subst hfile
  subst hoff
  exact writeAt_mid X Y Z data h

/-- Closed form of the payload-and-patch phase: run on a file that is a
patched region `A` (ending at record `i`), the skeleton records of the
remaining nodes, and the payloads `B` written so far — with the cursor at
the end of the file — it patches the remaining records in place and
appends the remaining payloads in order. -/
theorem wpfGo_closed (z : ZlibModel) (hz : z.valid) :
    ∀ (rest : List PackNode) (A B : List Nat) (i : Nat),
      A.length = 3 + i * 78 →
      (∀ n ∈ rest, n.name.length ≤ 63) →
      (∀ n ∈ rest, n.content.length < 4294967296) →
      A.length + 78 * rest.length + B.length + (storedLens z rest).sum
          < 4294967296 →
      wpfGo z rest
          (A ++ ((rest.map fun m => skeletonRecord m.name).flatten ++ B))
          (A.length + 78 * rest.length + B.length) i
        = A ++ ((finalRecords z (A.length + 78 * rest.length + B.length)
              rest).flatten
            ++ (B ++ (rest.map fun m => storedOf z m.content).flatten)) := by
  intro rest
  induction rest with
  | nil =>
      intro A B i hA hn hc hb
      simp [wpfGo, finalRecords]
  | cons n rest ih =>
      intro A B i hA hn hc hb
      have hname : n.name.length ≤ 63 := hn n (by simp)
      have hclen : n.content.length < 4294967296 := hc n (by simp)
      have hsum : (storedLens z (n :: rest)).sum
          = (storedOf z n.content).length + (storedLens z rest).sum := by
        simp [storedLens]
      rw [hsum] at hb
      simp only [List.length_cons] at hb ⊢
      have hslen : (storedOf z n.content).length < 4294967296 := by omega
      rw [wpfGo_cons_eq z hz n rest _ _ i hclen hslen]
      have h64 : (nameSlot64 n.name).length = 64 :=
        nameSlot64_length (by omega)
      have hskl : ((rest.map fun m => skeletonRecord m.name).flatten).length
          = rest.length * 78 := by
        rw [flatten_length_const (L := 78) (fun x hx => by
          obtain ⟨m, hm, rfl⟩ := List.mem_map.1 hx
          exact skeletonRecord_length (hn m (by simp [hm])))]
        rw [List.length_map]
      have h1 : A.length + 78 * (rest.length + 1) + B.length
          = (A ++ (((n :: rest).map fun m => skeletonRecord m.name).flatten
              ++ B)).length := by
        simp only [List.map_cons, List.flatten_cons, List.length_append,
          hskl, skeletonRecord_length hname]
        omega
      rw [writeAt_append h1 (storedOf z n.content)]
      rw [writeAt_mid' (A ++ nameSlot64 n.name)
        (le32 0 ++ le32 0 ++ [0] ++ le32 0 ++ [0])
        ((rest.map fun m => skeletonRecord m.name).flatten
          ++ (B ++ storedOf z n.content))
        (le32 (A.length + 78 * (rest.length + 1) + B.length)
          ++ le32 (storedOf z n.content).length ++ [ckOf n.content]
          ++ le32 n.content.length ++ [YEP_DATATYPE_MISC])
        (by simp [skeletonRecord, List.append_assoc])
        (by simp only [List.length_append, h64, hA, YEP_HEADER_SIZE_BYTES])
        (by simp [le32_length])]
      have hfe : (A ++ nameSlot64 n.name)
            ++ ((le32 (A.length + 78 * (rest.length + 1) + B.length)
              ++ le32 (storedOf z n.content).length ++ [ckOf n.content]
              ++ le32 n.content.length ++ [YEP_DATATYPE_MISC])
            ++ ((rest.map fun m => skeletonRecord m.name).flatten
              ++ (B ++ storedOf z n.content)))
          = (A ++ (nameSlot64 n.name
              ++ (le32 (A.length + 78 * (rest.length + 1) + B.length)
                ++ le32 (storedOf z n.content).length ++ [ckOf n.content]
                ++ le32 n.content.length ++ [YEP_DATATYPE_MISC])))
            ++ ((rest.map fun m => skeletonRecord m.name).flatten
              ++ (B ++ storedOf z n.content)) := by
        simp [List.append_assoc]
      rw [hfe]
      have hde : u32 (A.length + 78 * (rest.length + 1) + B.length
            + (storedOf z n.content).length)
          = A.length + 78 * (rest.length + 1) + B.length
            + (storedOf z n.content).length :=
        u32_eq (by omega)
      rw [hde]
      have harith : A.length + 78 * (rest.length + 1) + B.length
            + (storedOf z n.content).length
          = (A ++ (nameSlot64 n.name
              ++ (le32 (A.length + 78 * (rest.length + 1) + B.length)
                ++ le32 (storedOf z n.content).length ++ [ckOf n.content]
                ++ le32 n.content.length ++ [YEP_DATATYPE_MISC]))).length
            + 78 * rest.length
            + (B ++ storedOf z n.content).length := by
        simp only [List.length_append, h64, le32_length, List.length_cons,
          List.length_nil]
        omega
      rw [harith]
      rw [ih (A ++ (nameSlot64 n.name
          ++ (le32 (A.length + 78 * (rest.length + 1) + B.length)
            ++ le32 (storedOf z n.content).length ++ [ckOf n.content]
            ++ le32 n.content.length ++ [YEP_DATATYPE_MISC])))
        (B ++ storedOf z n.content) (i + 1)
        (by simp only [List.length_append, h64, le32_length,
          List.length_cons, List.length_nil]
            omega)
        (fun m hm => hn m (by simp [hm]))
        (fun m hm => hc m (by simp [hm]))
        (by simp only [List.length_append, h64, le32_length,
          List.length_cons, List.length_nil]
            omega)]
      rw [← harith]
      simp only [finalRecords, List.map_cons, List.flatten_cons,
        List.append_assoc]

/-- Closed form of the whole written archive: version byte, entry count,
the fully patched records, then the payloads concatenated in list order
starting at `data_start = 3 + entry_count * 78`. -/
theorem packArchive_eq (z : ZlibModel) (hz : z.valid) (nodes : List PackNode)
    (hn : ∀ n ∈ nodes, n.name.length ≤ 63)
    (hs : sizesOk z nodes) :
    packArchive z nodes
      = ([YEP_CURRENT_FORMAT_VERSION] ++ le16 nodes.length)
        ++ ((finalRecords z (3 + 78 * nodes.length) nodes).flatten
          ++ (nodes.map fun m => storedOf z m.content).flatten) := by
  obtain ⟨hc, hb⟩ := hs
  have hA3 : ([YEP_CURRENT_FORMAT_VERSION] ++ le16 nodes.length).length = 3 := by
    simp [le16_length]
  have h0 := wpfGo_closed z hz nodes
    ([YEP_CURRENT_FORMAT_VERSION] ++ le16 nodes.length) [] 0
    (by rw [hA3]) hn hc
    (by rw [hA3]; simpa using hb)
  rw [hA3] at h0
  simp only [List.length_nil, Nat.add_zero] at h0
  unfold packArchive write_pack_file packSkeleton
  have hde : u32 (3 + nodes.length * YEP_HEADER_SIZE_BYTES)
      = 3 + 78 * nodes.length + 0 := by
    rw [u32_eq (by simp only [YEP_HEADER_SIZE_BYTES]; omega)]
    simp only [YEP_HEADER_SIZE_BYTES]
    omega
  rw [hde]
  have hfile : [YEP_CURRENT_FORMAT_VERSION] ++ le16 nodes.length
        ++ (nodes.map fun n => skeletonRecord n.name).flatten
      = ([YEP_CURRENT_FORMAT_VERSION] ++ le16 nodes.length)
        ++ ((nodes.map fun m => skeletonRecord m.name).flatten ++ []) := by
    simp [List.append_assoc]
  rw [hfile]
  have h0' : 3 + 78 * nodes.length + 0 = 3 + 78 * nodes.length := by omega
  rw [h0', h0]
  simp

theorem finalRecords_drop (z : ZlibModel) :
    ∀ (nodes : List PackNode) (base i : Nat),
      (finalRecords z base nodes).drop i
        = finalRecords z (base + ((storedLens z nodes).take i).sum)
            (nodes.drop i) := by
  intro nodes
  induction nodes with
  | nil => intro base i; simp [finalRecords]
  | cons n rest ih =>
      intro base i
      cases i with
      | zero => simp [storedLens]
      | succ j =>
          simp only [finalRecords, List.drop_succ_cons, storedLens,
            List.map_cons, List.take_succ_cons, List.sum_cons]
          rw [ih]
          simp only [storedLens, Nat.add_assoc]

/-- The flattened records before index `i` occupy exactly `i * 78`
bytes. -/
theorem finalRecords_take_flatten_length (z : ZlibModel)
    (nodes : List PackNode) (base i : Nat)
    (hn : ∀ n ∈ nodes, n.name.length ≤ 63) (hi : i ≤ nodes.length) :
    (((finalRecords z base nodes).take i).flatten).length = i * 78 := by
  rw [flatten_length_const (L := 78) (fun r hr =>
    finalRecords_rec_length z nodes base hn r (List.mem_of_mem_take hr))]
  rw [List.length_take, finalRecords_length]
  omega

theorem finalRecords_flatten_length (z : ZlibModel)
    (nodes : List PackNode) (base : Nat)
    (hn : ∀ n ∈ nodes, n.name.length ≤ 63) :
    ((finalRecords z base nodes).flatten).length = nodes.length * 78 := by
  rw [flatten_length_const (L := 78)
    (finalRecords_rec_length z nodes base hn)]
  rw [finalRecords_length]

/-- Decomposition of the written archive around record `i`: prefix of
length `3 + i * 78`, then the record's six fields, then the remaining
records and the payload region. -/
theorem packArchive_split (z : ZlibModel) (hz : z.valid)
    (nodes : List PackNode) (hn : ∀ n ∈ nodes, n.name.length ≤ 63)
    (hs : sizesOk z nodes) (i : Nat) (hi : i < nodes.length) :
    packArchive z nodes
      = (([YEP_CURRENT_FORMAT_VERSION] ++ le16 nodes.length)
          ++ ((finalRecords z (dataStart nodes.length) nodes).take i).flatten)
        ++ (nameSlot64 nodes[i].name
          ++ (le32 (recOffset z nodes i)
            ++ (le32 (storedOf z nodes[i].content).length
              ++ ([ckOf nodes[i].content]
                ++ (le32 nodes[i].content.length
                  ++ ([YEP_DATATYPE_MISC]
                    ++ (((finalRecords z (dataStart nodes.length) nodes).drop
                          (i + 1)).flatten
                      ++ payloadsOf z nodes))))))) := by
  rw [packArchive_eq z hz nodes hn hs]
  rw [show (3 : Nat) + 78 * nodes.length = dataStart nodes.length from rfl]
  have hsplit : finalRecords z (dataStart nodes.length) nodes
      = (finalRecords z (dataStart nodes.length) nodes).take i
        ++ (finalRecords z (dataStart nodes.length) nodes).drop i :=
    (List.take_append_drop i _).symm
  have hdropi : (finalRecords z (dataStart nodes.length) nodes).drop i
      = (nameSlot64 nodes[i].name
          ++ le32 (recOffset z nodes i)
          ++ le32 (storedOf z nodes[i].content).length
          ++ [ckOf nodes[i].content]
          ++ le32 nodes[i].content.length ++ [YEP_DATATYPE_MISC])
        :: (finalRecords z (dataStart nodes.length) nodes).drop (i + 1) := by
    rw [finalRecords_drop, List.drop_eq_getElem_cons hi, finalRecords]
    rw [finalRecords_drop z nodes (dataStart nodes.length) (i + 1)]
    have : (storedLens z nodes).take (i + 1)
        = (storedLens z nodes).take i ++ [(storedOf z nodes[i].content).length] := by
      have hlen : i < (storedLens z nodes).length := by
        simp only [storedLens, List.length_map]
        exact hi
      rw [List.take_succ, List.getElem?_eq_getElem hlen]
      simp [storedLens]
    rw [this]
    simp only [recOffset, List.sum_append, List.sum_cons, List.sum_nil,
      Nat.add_zero, Nat.add_assoc]
  conv_lhs => rw [hsplit, hdropi]
  simp only [dataStart, payloadsOf, List.flatten_append, List.flatten_cons,
    List.append_assoc]

theorem payloadsOf_length (z : ZlibModel) (nodes : List PackNode) :
    (payloadsOf z nodes).length = (storedLens z nodes).sum := by
  simp only [payloadsOf, storedLens, List.length_flatten, List.map_map]
  rfl

theorem packArchive_length (z : ZlibModel) (hz : z.valid)
    (nodes : List PackNode) (hn : ∀ n ∈ nodes, n.name.length ≤ 63)
    (hs : sizesOk z nodes) :
    (packArchive z nodes).length
      = dataStart nodes.length + (storedLens z nodes).sum := by
  rw [packArchive_eq z hz nodes hn hs]
  have h1 := finalRecords_flatten_length z nodes (3 + 78 * nodes.length) hn
  have h2 := payloadsOf_length z nodes
  simp only [payloadsOf] at h2
  simp only [List.length_append, le16_length, List.length_cons,
    List.length_nil, h1, h2, dataStart]
  omega

theorem header_prefix_length (z : ZlibModel) (nodes : List PackNode)
    (hn : ∀ n ∈ nodes, n.name.length ≤ 63) (i : Nat) (hi : i ≤ nodes.length) :
    (([YEP_CURRENT_FORMAT_VERSION] ++ le16 nodes.length)
        ++ ((finalRecords z (dataStart nodes.length) nodes).take i).flatten).length
      = 3 + i * 78 := by
  rw [List.length_append,
    finalRecords_take_flatten_length z nodes (dataStart nodes.length) i hn hi]
  simp [le16_length]

theorem packArchive_rec_name (z : ZlibModel) (hz : z.valid)
    (nodes : List PackNode) (hn : ∀ n ∈ nodes, n.name.length ≤ 63)
    (hs : sizesOk z nodes) (i : Nat) (hi : i < nodes.length) :
    readBytes (packArchive z nodes) (3 + i * 78) 64
      = nameSlot64 nodes[i].name := by
  rw [packArchive_split z hz nodes hn hs i hi]
  exact readBytes_at _ _
    (header_prefix_length z nodes hn i (le_of_lt hi)).symm
    (nameSlot64_length (by have := hn nodes[i] (by simp); omega)).symm

theorem packArchive_rec_offset (z : ZlibModel) (hz : z.valid)
    (nodes : List PackNode) (hn : ∀ n ∈ nodes, n.name.length ≤ 63)
    (hs : sizesOk z nodes) (i : Nat) (hi : i < nodes.length) :
    deLE (readBytes (packArchive z nodes) (3 + i * 78 + 64) 4)
      = recOffset z nodes i := by
  have hto : ((storedLens z nodes).take i).sum ≤ (storedLens z nodes).sum := by
    have := List.sum_take_add_sum_drop (storedLens z nodes) i
    omega
  have hro : recOffset z nodes i < 4294967296 := by
    have := hs.2
    simp only [recOffset, dataStart]
    omega
  have h64 : (nameSlot64 nodes[i].name).length = 64 :=
    nameSlot64_length (by have := hn nodes[i] (by simp); omega)
  rw [packArchive_split z hz nodes hn hs i hi]
  rw [show (([YEP_CURRENT_FORMAT_VERSION] ++ le16 nodes.length)
        ++ ((finalRecords z (dataStart nodes.length) nodes).take i).flatten)
      ++ (nameSlot64 nodes[i].name
        ++ (le32 (recOffset z nodes i)
          ++ (le32 (storedOf z nodes[i].content).length
            ++ ([ckOf nodes[i].content]
              ++ (le32 nodes[i].content.length
                ++ ([YEP_DATATYPE_MISC]
                  ++ (((finalRecords z (dataStart nodes.length) nodes).drop
                        (i + 1)).flatten
                    ++ payloadsOf z nodes)))))))
      = ((([YEP_CURRENT_FORMAT_VERSION] ++ le16 nodes.length)
          ++ ((finalRecords z (dataStart nodes.length) nodes).take i).flatten)
          ++ nameSlot64 nodes[i].name)
        ++ (le32 (recOffset z nodes i)
          ++ (le32 (storedOf z nodes[i].content).length
            ++ ([ckOf nodes[i].content]
              ++ (le32 nodes[i].content.length
                ++ ([YEP_DATATYPE_MISC]
                  ++ (((finalRecords z (dataStart nodes.length) nodes).drop
                        (i + 1)).flatten
                    ++ payloadsOf z nodes)))))) from by
    simp [List.append_assoc]]
  rw [readBytes_at _ _ (by
      rw [List.length_append,
        header_prefix_length z nodes hn i (le_of_lt hi), h64])
    (le32_length _).symm]
  exact deLE_le32 hro

theorem storedLen_le_sum (z : ZlibModel) (nodes : List PackNode) (i : Nat)
    (hi : i < nodes.length) :
    (storedOf z nodes[i].content).length ≤ (storedLens z nodes).sum := by
  have hl : i < (storedLens z nodes).length := by
    simp only [storedLens, List.length_map]
    exact hi
  have hget : (storedLens z nodes)[i] = (storedOf z nodes[i].content).length := by
    simp [storedLens]
  have hsplit := List.sum_take_add_sum_drop (storedLens z nodes) i
  rw [List.drop_eq_getElem_cons hl, List.sum_cons, hget] at hsplit
  omega

theorem packArchive_rec_size (z : ZlibModel) (hz : z.valid)
    (nodes : List PackNode) (hn : ∀ n ∈ nodes, n.name.length ≤ 63)
    (hs : sizesOk z nodes) (i : Nat) (hi : i < nodes.length) :
    deLE (readBytes (packArchive z nodes) (3 + i * 78 + 68) 4)
      = (storedOf z nodes[i].content).length := by
  have hsl : (storedOf z nodes[i].content).length < 4294967296 := by
    have h1 := storedLen_le_sum z nodes i hi
    have h2 := hs.2
    omega
  have h64 : (nameSlot64 nodes[i].name).length = 64 :=
    nameSlot64_length (by have := hn nodes[i] (by simp); omega)
  have hshape : packArchive z nodes
      = ((([YEP_CURRENT_FORMAT_VERSION] ++ le16 nodes.length)
            ++ ((finalRecords z (dataStart nodes.length) nodes).take i).flatten)
          ++ nameSlot64 nodes[i].name
          ++ le32 (recOffset z nodes i))
        ++ (le32 (storedOf z nodes[i].content).length
          ++ ([ckOf nodes[i].content]
            ++ le32 nodes[i].content.length
            ++ [YEP_DATATYPE_MISC]
            ++ ((finalRecords z (dataStart nodes.length) nodes).drop
                (i + 1)).flatten
            ++ payloadsOf z nodes)) := by
    rw [packArchive_split z hz nodes hn hs i hi]
    simp [List.append_assoc]
  rw [hshape]
  rw [readBytes_at _ _ (by
      simp only [List.length_append,
        header_prefix_length z nodes hn i (le_of_lt hi), h64, le32_length])
    (le32_length _).symm]
  exact deLE_le32 hsl

theorem packArchive_rec_ck (z : ZlibModel) (hz : z.valid)
    (nodes : List PackNode) (hn : ∀ n ∈ nodes, n.name.length ≤ 63)
    (hs : sizesOk z nodes) (i : Nat) (hi : i < nodes.length) :
    deLE (readBytes (packArchive z nodes) (3 + i * 78 + 72) 1)
      = ckOf nodes[i].content := by
  have h64 : (nameSlot64 nodes[i].name).length = 64 :=
    nameSlot64_length (by have := hn nodes[i] (by simp); omega)
  have hshape : packArchive z nodes
      = ((([YEP_CURRENT_FORMAT_VERSION] ++ le16 nodes.length)
            ++ ((finalRecords z (dataStart nodes.length) nodes).take i).flatten)
          ++ nameSlot64 nodes[i].name
          ++ le32 (recOffset z nodes i)
          ++ le32 (storedOf z nodes[i].content).length)
        ++ ([ckOf nodes[i].content]
          ++ (le32 nodes[i].content.length
            ++ [YEP_DATATYPE_MISC]
            ++ ((finalRecords z (dataStart nodes.length) nodes).drop
                (i + 1)).flatten
            ++ payloadsOf z nodes)) := by
    rw [packArchive_split z hz nodes hn hs i hi]
    simp [List.append_assoc]
  rw [hshape]
  rw [readBytes_at _ _ (by
      simp only [List.length_append,
        header_prefix_length z nodes hn i (le_of_lt hi), h64, le32_length])
    (by simp)]
  simp [deLE]

theorem packArchive_rec_orig (z : ZlibModel) (hz : z.valid)
    (nodes : List PackNode) (hn : ∀ n ∈ nodes, n.name.length ≤ 63)
    (hs : sizesOk z nodes) (i : Nat) (hi : i < nodes.length) :
    deLE (readBytes (packArchive z nodes) (3 + i * 78 + 73) 4)
      = nodes[i].content.length := by
  have hcl : nodes[i].content.length < 4294967296 :=
    hs.1 nodes[i] (by simp)
  have h64 : (nameSlot64 nodes[i].name).length = 64 :=
    nameSlot64_length (by have := hn nodes[i] (by simp); omega)
  have hshape : packArchive z nodes
      = ((([YEP_CURRENT_FORMAT_VERSION] ++ le16 nodes.length)
            ++ ((finalRecords z (dataStart nodes.length) nodes).take i).flatten)
          ++ nameSlot64 nodes[i].name
          ++ le32 (recOffset z nodes i)
          ++ le32 (storedOf z nodes[i].content).length
          ++ [ckOf nodes[i].content])
        ++ (le32 nodes[i].content.length
          ++ ([YEP_DATATYPE_MISC]
            ++ ((finalRecords z (dataStart nodes.length) nodes).drop
                (i + 1)).flatten
            ++ payloadsOf z nodes)) := by
    rw [packArchive_split z hz nodes hn hs i hi]
    simp [List.append_assoc]
  rw [hshape]
  rw [readBytes_at _ _ (by
      simp only [List.length_append,
        header_prefix_length z nodes hn i (le_of_lt hi), h64, le32_length,
        List.length_cons, List.length_nil])
    (le32_length _).symm]
  exact deLE_le32 hcl

theorem packArchive_rec_dtype (z : ZlibModel) (hz : z.valid)
    (nodes : List PackNode) (hn : ∀ n ∈ nodes, n.name.length ≤ 63)
    (hs : sizesOk z nodes) (i : Nat) (hi : i < nodes.length) :
    deLE (readBytes (packArchive z nodes) (3 + i * 78 + 77) 1)
      = YEP_DATATYPE_MISC := by
  have h64 : (nameSlot64 nodes[i].name).length = 64 :=
    nameSlot64_length (by have := hn nodes[i] (by simp); omega)
  have hshape : packArchive z nodes
      = ((([YEP_CURRENT_FORMAT_VERSION] ++ le16 nodes.length)
            ++ ((finalRecords z (dataStart nodes.length) nodes).take i).flatten)
          ++ nameSlot64 nodes[i].name
          ++ le32 (recOffset z nodes i)
          ++ le32 (storedOf z nodes[i].content).length
          ++ [ckOf nodes[i].content]
          ++ le32 nodes[i].content.length)
        ++ ([YEP_DATATYPE_MISC]
          ++ (((finalRecords z (dataStart nodes.length) nodes).drop
                (i + 1)).flatten
            ++ payloadsOf z nodes)) := by
    rw [packArchive_split z hz nodes hn hs i hi]
    simp [List.append_assoc]
  rw [hshape]
  rw [readBytes_at _ _ (by
      simp only [List.length_append,
        header_prefix_length z nodes hn i (le_of_lt hi), h64, le32_length,
        List.length_cons, List.length_nil])
    (by simp)]
  simp [deLE]

theorem packArchive_payload (z : ZlibModel) (hz : z.valid)
    (nodes : List PackNode) (hn : ∀ n ∈ nodes, n.name.length ≤ 63)
    (hs : sizesOk z nodes) (i : Nat) (hi : i < nodes.length) :
    readBytes (packArchive z nodes) (recOffset z nodes i)
        ((storedOf z nodes[i].content).length)
      = storedOf z nodes[i].content := by
  have hmaplen : (storedLens z nodes)
      = (nodes.map fun m => storedOf z m.content).map List.length := by
    simp only [storedLens, List.map_map]
    rfl
  have hixs : i < (nodes.map fun m => storedOf z m.content).length := by
    simp only [List.length_map]
    exact hi
  have hget : (nodes.map fun m => storedOf z m.content)[i]
      = storedOf z nodes[i].content := by
    simp
  have key : ∀ (F PL : List Nat), F.length = dataStart nodes.length →
      PL = payloadsOf z nodes →
      readBytes (F ++ PL) (recOffset z nodes i)
          ((storedOf z nodes[i].content).length)
        = storedOf z nodes[i].content := by
    intro F PL hF hPL
    rw [readBytes, recOffset, ← hF, List.drop_append, hPL, payloadsOf,
      hmaplen, flatten_drop_sum, List.drop_eq_getElem_cons hixs,
      List.flatten_cons, hget, List.take_left]
  have harch : packArchive z nodes
      = (([YEP_CURRENT_FORMAT_VERSION] ++ le16 nodes.length)
          ++ (finalRecords z (dataStart nodes.length) nodes).flatten)
        ++ payloadsOf z nodes := by
    rw [packArchive_eq z hz nodes hn hs]
    simp [payloadsOf, dataStart, List.append_assoc]
  have hh : (([YEP_CURRENT_FORMAT_VERSION] ++ le16 nodes.length)
        ++ (finalRecords z (dataStart nodes.length) nodes).flatten).length
      = dataStart nodes.length := by
    rw [List.length_append,
      finalRecords_flatten_length z nodes (dataStart nodes.length) hn]
    simp only [List.length_append, le16_length, List.length_cons,
      List.length_nil, dataStart]
    omega
  rw [harch]
  exact key _ _ hh rfl

/-!  Behaviour of the header scan. -/

theorem seekHeaderAux_none (file handle : List Nat) :
    ∀ (fuel i : Nat),
      (∀ j, i ≤ j → j < i + fuel → cstr (recordAt file j).name ≠ handle) →
      seekHeaderAux file handle fuel i = none := by
  intro fuel
  induction fuel with
  | zero => intro i _; rfl
  | succ m ih =>
      intro i h
      simp only [seekHeaderAux]
      rw [if_neg (h i le_rfl (by omega))]
      exact ih (i + 1) (fun j hj1 hj2 => h j (by omega) (by omega))

theorem seekHeaderAux_found (file handle : List Nat) :
    ∀ (fuel i k : Nat), i ≤ k → k < i + fuel →
      cstr (recordAt file k).name = handle →
      (∀ j, i ≤ j → j < k → cstr (recordAt file j).name ≠ handle) →
      seekHeaderAux file handle fuel i = some (recordAt file k) := by
  intro fuel
  induction fuel with
  | zero => intro i k h1 h2 _ _; omega
  | succ m ih =>
      intro i k h1 h2 hk hmin
      simp only [seekHeaderAux]
      by_cases hcur : cstr (recordAt file i).name = handle
      · have hcki : k = i := by
          by_contra hne
          exact hmin i le_rfl (by omega) hcur
        rw [if_pos hcur, hcki]
      · rw [if_neg hcur]
        have hik : i ≠ k := fun e => hcur (e ▸ hk)
        exact ih (i + 1) k (by omega) (by omega) hk
          (fun j hj1 hj2 => hmin j (by omega) hj2)

/-- What `_yep_seek_header` reads at record `i` of an archive the writer
produced. -/
theorem recordAt_packArchive (z : ZlibModel) (hz : z.valid)
    (nodes : List PackNode) (hn : ∀ n ∈ nodes, n.name.length ≤ 63)
    (hs : sizesOk z nodes) (i : Nat) (hi : i < nodes.length) :
    recordAt (packArchive z nodes) i
      = { name := nameSlot64 nodes[i].name
          offset := recOffset z nodes i
          size := (storedOf z nodes[i].content).length
          compression_type := ckOf nodes[i].content
          uncompressed_size := nodes[i].content.length
          data_type := YEP_DATATYPE_MISC } := by
  simp only [recordAt, YEP_HEADER_SIZE_BYTES]
  rw [packArchive_rec_name z hz nodes hn hs i hi,
    packArchive_rec_offset z hz nodes hn hs i hi,
    packArchive_rec_size z hz nodes hn hs i hi,
    packArchive_rec_ck z hz nodes hn hs i hi,
    packArchive_rec_orig z hz nodes hn hs i hi,
    packArchive_rec_dtype z hz nodes hn hs i hi]

theorem recName_packArchive (z : ZlibModel) (hz : z.valid)
    (nodes : List PackNode) (hn : ∀ n ∈ nodes, n.name.length ≤ 63)
    (hnz : ∀ n ∈ nodes, 0 ∉ n.name)
    (hs : sizesOk z nodes) (i : Nat) (hi : i < nodes.length) :
    recName (packArchive z nodes) i = nodes[i].name := by
  simp only [recName, YEP_HEADER_SIZE_BYTES]
  rw [packArchive_rec_name z hz nodes hn hs i hi]
  exact cstr_nameSlot64 (hnz nodes[i] (by simp))

/-!  The walker builds exactly the reversed, length-filtered list of the
regular files it encounters. -/

theorem walkList_eq (p : List Nat) (es : List DirEnt) (acc : List PackNode) :
    walkList p es acc
      = ((discList p es).filter
          (fun n => n.name.length + 1 ≤ 64)).reverse ++ acc := by
  induction p, es, acc using walkList.induct with
  | case1 p acc =>
      simp [walkList, discList]
  | case2 p acc s c rest rel hgt ih =>
      have hgt' : (relOf p s).length + 1 > 64 := hgt
      simp only [walkList, discList]
      rw [if_pos hgt, ih]
      have hnot : ¬ ((relOf p s).length ≤ 63) := by omega
      simp [List.filter_cons, hnot]
  | case3 p acc s c rest rel hgt ih =>
      have hgt' : ¬ ((relOf p s).length + 1 > 64) := hgt
      simp only [walkList, discList]
      rw [if_neg hgt, ih]
      have hyes : (relOf p s).length ≤ 63 := by omega
      simp [List.filter_cons, hyes]
  | case4 p acc s sub rest hdot ih =>
      simp only [walkList, discList]
      rw [if_pos hdot, ih, if_pos hdot]
      simp
  | case5 p acc s sub rest hdot ih1 ih2 =>
      simp only [walkList, discList]
      rw [if_neg hdot, ih2, ih1, if_neg hdot]
      simp [List.filter_append, List.reverse_append, List.append_assoc]
  | case6 p acc name rest ih =>
      simp only [walkList, discList]
      rw [ih]

/-!  The open-archive cache. -/

/-- A fresh open of a path that is not the cached one, on a readable file
whose version byte matches: succeeds, caches path/handle/counters, and
appends a new stream to the OS table. -/
theorem open_fresh (fs : FS) (st : YepState) (file content : List Nat)
    (hpath : st.yep_file_path ≠ some file)
    (hfs : fs file = some content)
    (hver : content.headD 0 = YEP_CURRENT_FORMAT_VERSION)
    (hlen : 3 ≤ content.length) :
    _yep_open_file fs st file
      = (true,
          { yep_file_path := some file
            yep_file := some st.nextHandle
            file_entry_count := deLE (readBytes content 1 2)
            file_version_number := YEP_CURRENT_FORMAT_VERSION
            openHandles := st.openHandles ++ [(st.nextHandle, content)]
            nextHandle := st.nextHandle + 1 }) := by
  simp only [_yep_open_file, hfs]
  rw [if_neg hpath]
  have h1 : content.length ≥ 1 := by omega
  have hver' : content.head?.getD 0 = YEP_CURRENT_FORMAT_VERSION := by
    rw [← List.headD_eq_head?_getD]
    exact hver
  simp [h1, hlen, hver']

/-- `yep_extract_data` on a state whose cache already holds the requested
path with a live stream: the open is a pure reuse and the result is
determined by the header scan on the cached entry count. -/
theorem yep_extract_data_open (z : ZlibModel) (fs : FS) (st : YepState)
    (file handle : List Nat) (hid : Nat) (content : List Nat)
    (hpath : st.yep_file_path = some file)
    (hfile : st.yep_file = some hid)
    (hcont : handleContent st.openHandles hid = some content) :
    yep_extract_data z fs st file handle
      = (match _yep_seek_header content st.file_entry_count handle with
         | none => (CResult.ret none, st)
         | some h =>
             if h.compression_type = YEP_COMPRESSION_ZLIB then
               match decompress_data z (readBytes content h.offset h.size)
                   h.uncompressed_size with
               | none => (CResult.exited, st)
               | some d => (CResult.ret (some d), st)
             else (CResult.ret (some (readBytes content h.offset h.size)), st)) := by
  simp only [yep_extract_data, _yep_open_file, hpath, if_pos, hfile, hcont]

/-!  Round trip over an arbitrary pack list. -/

theorem packArchive_headD (z : ZlibModel) (hz : z.valid)
    (nodes : List PackNode) (hn : ∀ n ∈ nodes, n.name.length ≤ 63)
    (hs : sizesOk z nodes) :
    (packArchive z nodes).headD 0 = YEP_CURRENT_FORMAT_VERSION := by
  rw [packArchive_eq z hz nodes hn hs]
  rfl

theorem packArchive_len3 (z : ZlibModel) (hz : z.valid)
    (nodes : List PackNode) (hn : ∀ n ∈ nodes, n.name.length ≤ 63)
    (hs : sizesOk z nodes) :
    3 ≤ (packArchive z nodes).length := by
  rw [packArchive_length z hz nodes hn hs]
  simp only [dataStart]
  omega

theorem packArchive_count (z : ZlibModel) (hz : z.valid)
    (nodes : List PackNode) (hn : ∀ n ∈ nodes, n.name.length ≤ 63)
    (hs : sizesOk z nodes) (hcount : nodes.length < 65536) :
    deLE (readBytes (packArchive z nodes) 1 2) = nodes.length := by
  have hshape : packArchive z nodes
      = [YEP_CURRENT_FORMAT_VERSION]
        ++ (le16 nodes.length
          ++ ((finalRecords z (3 + 78 * nodes.length) nodes).flatten
            ++ (nodes.map fun m => storedOf z m.content).flatten)) := by
    rw [packArchive_eq z hz nodes hn hs]
    simp [List.append_assoc]
  rw [hshape, readBytes_at _ _ (by simp) (le16_length _).symm]
  exact deLE_le16 hcount

/-- Extracting any pack-list entry by its name from a freshly
initialized subsystem, against the archive the writer produced, returns
exactly the entry's original bytes. -/
theorem extract_packed (z : ZlibModel) (hz : z.valid) (nodes : List PackNode)
    (P rel c : List Nat)
    (hn : ∀ n ∈ nodes, n.name.length ≤ 63)
    (hnz : ∀ n ∈ nodes, 0 ∉ n.name)
    (hnodup : (nodes.map PackNode.name).Nodup)
    (hcount : nodes.length < 65536)
    (hs : sizesOk z nodes)
    (hmem : (⟨rel, c⟩ : PackNode) ∈ nodes) :
    (yep_extract_data z
        (fun q => if q = P then some (packArchive z nodes) else none)
        YepState.init P rel).1
      = CResult.ret (some c) := by
  obtain ⟨k, hklt, hgetk⟩ := List.getElem_of_mem hmem
  have hconk : nodes[k].content = c := by rw [hgetk]
  have hopen := open_fresh
    (fun q => if q = P then some (packArchive z nodes) else none)
    YepState.init P (packArchive z nodes)
    (by simp [YepState.init]) (by simp)
    (packArchive_headD z hz nodes hn hs)
    (packArchive_len3 z hz nodes hn hs)
  have hcnt := packArchive_count z hz nodes hn hs hcount
  have hseek : _yep_seek_header (packArchive z nodes) nodes.length rel
      = some (recordAt (packArchive z nodes) k) := by
    apply seekHeaderAux_found (packArchive z nodes) rel nodes.length 0 k
      (Nat.zero_le k) (by omega)
    · rw [recordAt_packArchive z hz nodes hn hs k hklt]
      show cstr (nameSlot64 nodes[k].name) = rel
      rw [cstr_nameSlot64 (hnz nodes[k] (by simp)), hgetk]
    · intro j _ hjk
      have hjlt : j < nodes.length := by omega
      rw [recordAt_packArchive z hz nodes hn hs j hjlt]
      show cstr (nameSlot64 nodes[j].name) ≠ rel
      rw [cstr_nameSlot64 (hnz nodes[j] (by simp))]
      intro heq
      have hjm : j < (nodes.map PackNode.name).length := by
        simp only [List.length_map]
        exact hjlt
      have hkm : k < (nodes.map PackNode.name).length := by
        simp only [List.length_map]
        exact hklt
      have hmapj : (nodes.map PackNode.name)[j] = (nodes.map PackNode.name)[k] := by
        simp only [List.getElem_map]
        rw [heq, hgetk]
      have := (List.Nodup.getElem_inj_iff hnodup).mp hmapj
      omega
  simp only [yep_extract_data]
  rw [hopen]
  simp only [YepState.init, handleContent, List.nil_append, List.find?,
    beq_self_eq_true, Option.map_some]
  rw [hcnt]
  simp only [Option.map_some']
  rw [hseek, recordAt_packArchive z hz nodes hn hs k hklt]
  simp only []
  rw [packArchive_payload z hz nodes hn hs k hklt]
  obtain ⟨hdi, hii, hfit, hinv⟩ := hz
  by_cases hth : nodes[k].content.length > 256
  · have hck : ckOf nodes[k].content = YEP_COMPRESSION_ZLIB := by
      simp [ckOf, hth]
    have hstored : storedOf z nodes[k].content = z.deflate nodes[k].content := by
      simp [storedOf, hth]
    rw [hck, if_pos rfl, hstored]
    simp only [decompress_data, hii, Bool.true_eq_false, if_false,
      hinv nodes[k].content]
    simp [hconk]
  · have hck : ckOf nodes[k].content = YEP_COMPRESSION_NONE := by
      simp [ckOf, hth]
    have hstored : storedOf z nodes[k].content = nodes[k].content := by
      simp [storedOf, hth]
    rw [hck]
    rw [if_neg (by simp [YEP_COMPRESSION_NONE, YEP_COMPRESSION_ZLIB])]
    rw [hstored, hconk]

/-!  Claim theorems. -/

/-- C9: `decompress_data` inflates into a buffer of exactly
`expected_size` bytes and returns an error exactly when the inflate
stream fails to initialize, fails to reach its end-of-stream marker, or
the number of bytes actually produced differs from `expected_size`; on
success the output holds exactly the `expected_size` produced bytes. -/
theorem claim_C9_decompress_spec (z : ZlibModel) (input : List Nat) (sz : Nat) :
    (decompress_data z input sz = none
      ↔ z.inflateInitOk = false ∨ (z.inflateRun input sz).2 = false
          ∨ (z.inflateRun input sz).1.length ≠ sz)
    ∧ (∀ out, decompress_data z input sz = some out
        → out = (z.inflateRun input sz).1 ∧ out.length = sz) := by
  simp only [decompress_data]
  constructor
  · by_cases h1 : z.inflateInitOk = false
    · simp [h1]
    · rw [if_neg h1]
      by_cases h2 : (z.inflateRun input sz).2 = false
      · simp [h1, h2]
      · rw [if_neg h2]
        by_cases h3 : sz ≠ (z.inflateRun input sz).1.length
        · rw [if_pos h3]
          simp [h1, h2]
          omega
        · rw [if_neg h3]
          simp [h1, h2]
          omega
  · intro out hout
    by_cases h1 : z.inflateInitOk = false
    · rw [if_pos h1] at hout
      cases hout
    · rw [if_neg h1] at hout
      by_cases h2 : (z.inflateRun input sz).2 = false
      · rw [if_pos h2] at hout
        cases hout
      · rw [if_neg h2] at hout
        by_cases h3 : sz ≠ (z.inflateRun input sz).1.length
        · rw [if_pos h3] at hout
          cases hout
        · rw [if_neg h3] at hout
          cases hout
          constructor
          · rfl
          · omega

/-- C9 witness: the specification evaluated at a concrete codec and
input. -/
theorem claim_C9_witness :
    (decompress_data idZlib [5] 1 = none
      ↔ idZlib.inflateInitOk = false ∨ (idZlib.inflateRun [5] 1).2 = false
          ∨ (idZlib.inflateRun [5] 1).1.length ≠ 1)
    ∧ (∀ out, decompress_data idZlib [5] 1 = some out
        → out = (idZlib.inflateRun [5] 1).1 ∧ out.length = 1) :=
  claim_C9_decompress_spec idZlib [5] 1

/-- C2: for every entry of a pack operation (with in-range sizes), the
byte the writer records in the archive's `compression_kind` slot of
record `i` (offset `3 + i * 78 + 72`) is NONE exactly when the raw file
size is ≤ 256 bytes and DEFLATE exactly when it is > 256 bytes. -/
theorem claim_C2_threshold (z : ZlibModel) (hz : z.valid)
    (nodes : List PackNode) (hn : ∀ n ∈ nodes, n.name.length ≤ 63)
    (hs : sizesOk z nodes) (i : Nat) (hi : i < nodes.length) :
    (deLE (readBytes (packArchive z nodes) (3 + i * 78 + 72) 1)
        = YEP_COMPRESSION_NONE
      ↔ nodes[i].content.length ≤ 256)
    ∧ (deLE (readBytes (packArchive z nodes) (3 + i * 78 + 72) 1)
        = YEP_COMPRESSION_ZLIB
      ↔ nodes[i].content.length > 256) := by
  rw [packArchive_rec_ck z hz nodes hn hs i hi]
  unfold ckOf YEP_COMPRESSION_NONE YEP_COMPRESSION_ZLIB
  by_cases hth : nodes[i].content.length > 256
  · rw [if_pos hth]
    constructor <;> simp <;> omega
  · rw [if_neg hth]
    constructor <;> simp <;> omega

set_option maxRecDepth 100000 in
/-- C2 witness: a two-entry pack list with a 1-byte file and a 300-byte
file, checked at the first record. -/
theorem claim_C2_witness :
    ((idZlib.valid ∧ (∀ n ∈ [PackNode.mk [97] [7],
          PackNode.mk [98] (List.replicate 300 5)], n.name.length ≤ 63)
        ∧ sizesOk idZlib [PackNode.mk [97] [7],
          PackNode.mk [98] (List.replicate 300 5)]
        ∧ 0 < ([PackNode.mk [97] [7],
          PackNode.mk [98] (List.replicate 300 5)] : List PackNode).length)
      ∧ (deLE (readBytes (packArchive idZlib [PackNode.mk [97] [7],
            PackNode.mk [98] (List.replicate 300 5)]) (3 + 0 * 78 + 72) 1)
          = YEP_COMPRESSION_NONE
        ↔ ([PackNode.mk [97] [7],
            PackNode.mk [98] (List.replicate 300 5)] :
              List PackNode)[0].content.length ≤ 256)) := by
  refine ⟨⟨idZlib_valid, by decide, ⟨by decide, by decide⟩, by decide⟩, ?_⟩
  exact (claim_C2_threshold idZlib idZlib_valid _ (by decide)
    ⟨by decide, by decide⟩ 0 (by decide)).1

/-- C5: in every archive a pack operation writes (with in-range sizes),
every record satisfies `offset + stored_size ≤ total archive size`, where
`offset` and `stored_size` are the little-endian fields the writer
patched into record `i`. -/
theorem claim_C5_bounds (z : ZlibModel) (hz : z.valid)
    (nodes : List PackNode) (hn : ∀ n ∈ nodes, n.name.length ≤ 63)
    (hs : sizesOk z nodes) (i : Nat) (hi : i < nodes.length) :
    deLE (readBytes (packArchive z nodes) (3 + i * 78 + 64) 4)
        + deLE (readBytes (packArchive z nodes) (3 + i * 78 + 68) 4)
      ≤ (packArchive z nodes).length := by
  rw [packArchive_rec_offset z hz nodes hn hs i hi,
    packArchive_rec_size z hz nodes hn hs i hi,
    packArchive_length z hz nodes hn hs]
  have hl : i < (storedLens z nodes).length := by
    simp only [storedLens, List.length_map]
    exact hi
  have hget : (storedLens z nodes)[i] = (storedOf z nodes[i].content).length := by
    simp [storedLens]
  have hsplit := List.sum_take_add_sum_drop (storedLens z nodes) i
  rw [List.drop_eq_getElem_cons hl, List.sum_cons, hget] at hsplit
  simp only [recOffset]
  omega

set_option maxRecDepth 100000 in
/-- C5 witness: the bounds invariant at the second record of a concrete
two-entry archive. -/
theorem claim_C5_witness :
    ((idZlib.valid ∧ (∀ n ∈ [PackNode.mk [97] [7],
          PackNode.mk [98] (List.replicate 300 5)], n.name.length ≤ 63)
        ∧ sizesOk idZlib [PackNode.mk [97] [7],
          PackNode.mk [98] (List.replicate 300 5)]
        ∧ 1 < ([PackNode.mk [97] [7],
          PackNode.mk [98] (List.replicate 300 5)] : List PackNode).length)
      ∧ deLE (readBytes (packArchive idZlib [PackNode.mk [97] [7],
            PackNode.mk [98] (List.replicate 300 5)]) (3 + 1 * 78 + 64) 4)
          + deLE (readBytes (packArchive idZlib [PackNode.mk [97] [7],
            PackNode.mk [98] (List.replicate 300 5)]) (3 + 1 * 78 + 68) 4)
        ≤ (packArchive idZlib [PackNode.mk [97] [7],
            PackNode.mk [98] (List.replicate 300 5)]).length) :=
  ⟨⟨idZlib_valid, by decide, ⟨by decide, by decide⟩, by decide⟩,
    claim_C5_bounds idZlib idZlib_valid _ (by decide)
      ⟨by decide, by decide⟩ 1 (by decide)⟩

/-- C8: the payload-and-patch phase turns the phase-1 skeleton into the
version byte and entry count, followed by the records — each the
untouched 64-byte phase-1 name slot, then the patched `offset`,
`stored_size`, `compression_kind`, `original_size`, `kind_tag` fields at
byte `3 + i * 78 + 64` — followed by the payloads, the first at byte
`3 + entry_count * 78` and each next one immediately after the previous,
in phase-1 record order; record `i`'s offset field is the cursor
position, advancing by exactly the stored size each step. -/
theorem claim_C8_layout (z : ZlibModel) (hz : z.valid)
    (nodes : List PackNode) (hn : ∀ n ∈ nodes, n.name.length ≤ 63)
    (hs : sizesOk z nodes) :
    packArchive z nodes
        = ([YEP_CURRENT_FORMAT_VERSION] ++ le16 nodes.length)
          ++ ((finalRecords z (dataStart nodes.length) nodes).flatten
            ++ payloadsOf z nodes)
      ∧ recOffset z nodes 0 = 3 + nodes.length * 78
      ∧ (∀ i, (hi : i < nodes.length) →
          recOffset z nodes (i + 1)
            = recOffset z nodes i + (storedOf z nodes[i].content).length)
      ∧ (∀ i, (hi : i < nodes.length) →
          readBytes (packArchive z nodes) (3 + i * 78) 64
              = nameSlot64 nodes[i].name
            ∧ readBytes (packArchive z nodes) (recOffset z nodes i)
                ((storedOf z nodes[i].content).length)
              = storedOf z nodes[i].content
            ∧ deLE (readBytes (packArchive z nodes) (3 + i * 78 + 64) 4)
              = recOffset z nodes i
            ∧ deLE (readBytes (packArchive z nodes) (3 + i * 78 + 68) 4)
              = (storedOf z nodes[i].content).length
            ∧ deLE (readBytes (packArchive z nodes) (3 + i * 78 + 72) 1)
              = ckOf nodes[i].content
            ∧ deLE (readBytes (packArchive z nodes) (3 + i * 78 + 73) 4)
              = nodes[i].content.length
            ∧ deLE (readBytes (packArchive z nodes) (3 + i * 78 + 77) 1)
              = YEP_DATATYPE_MISC) := by
  refine ⟨?_, ?_, ?_, ?_⟩
  · rw [packArchive_eq z hz nodes hn hs]
    simp [payloadsOf, dataStart]
  · simp only [recOffset, dataStart, List.take_zero, List.sum_nil]
    omega
  · intro i hi
    have hl : i < (storedLens z nodes).length := by
      simp only [storedLens, List.length_map]
      exact hi
    have hget : (storedLens z nodes)[i]
        = (storedOf z nodes[i].content).length := by
      simp [storedLens]
    simp only [recOffset]
    rw [List.take_succ, List.getElem?_eq_getElem hl, hget]
    simp [List.sum_append]
    omega
  · intro i hi
    exact ⟨packArchive_rec_name z hz nodes hn hs i hi,
      packArchive_payload z hz nodes hn hs i hi,
      packArchive_rec_offset z hz nodes hn hs i hi,
      packArchive_rec_size z hz nodes hn hs i hi,
      packArchive_rec_ck z hz nodes hn hs i hi,
      packArchive_rec_orig z hz nodes hn hs i hi,
      packArchive_rec_dtype z hz nodes hn hs i hi⟩

set_option maxRecDepth 100000 in
/-- C8 witness: the layout at a concrete two-entry pack list, reading
off the closed form and the first record's offset field. -/
theorem claim_C8_witness :
    ((idZlib.valid ∧ (∀ n ∈ [PackNode.mk [97] [7],
          PackNode.mk [98] (List.replicate 300 5)], n.name.length ≤ 63)
        ∧ sizesOk idZlib [PackNode.mk [97] [7],
          PackNode.mk [98] (List.replicate 300 5)])
      ∧ recOffset idZlib [PackNode.mk [97] [7],
            PackNode.mk [98] (List.replicate 300 5)] 0
          = 3 + ([PackNode.mk [97] [7],
            PackNode.mk [98] (List.replicate 300 5)] :
              List PackNode).length * 78) :=
  ⟨⟨idZlib_valid, by decide, ⟨by decide, by decide⟩⟩,
    (claim_C8_layout idZlib idZlib_valid _ (by decide)
      ⟨by decide, by decide⟩).2.1⟩

theorem seek_none_iff (file handle : List Nat) (cnt : Nat) :
    _yep_seek_header file cnt handle = none
      ↔ ∀ j, j < cnt → recName file j ≠ handle := by
  have hrn : ∀ j, cstr (recordAt file j).name = recName file j := fun j => rfl
  constructor
  · intro hnone j hj hmatch
    have hex : ∃ m, m < cnt ∧ recName file m = handle := ⟨j, hj, hmatch⟩
    set k := Nat.find hex with hk
    obtain ⟨hk1, hk2⟩ := Nat.find_spec hex
    have hfound := seekHeaderAux_found file handle cnt 0 k (Nat.zero_le k)
      (by omega)
      (by rw [hrn]; exact hk2)
      (by
        intro m _ hmk
        rw [hrn]
        intro hm
        exact Nat.find_min hex hmk ⟨by omega, hm⟩)
    rw [_yep_seek_header] at hnone
    rw [hfound] at hnone
    cases hnone
  · intro hall
    exact seekHeaderAux_none file handle cnt 0
      (fun j _ h2 => by rw [hrn]; exact hall j (by omega))

/-- C7: with an archive open (cached path, live stream), a handle
matching no record makes the header scan — which examines all
`entry_count` records — come back empty, and the extract call returns
the null pointer with the state unchanged (no abort, no undefined
behavior); when records do match, the scan returns the record at the
first matching index in storage order. -/
theorem claim_C7_notfound (z : ZlibModel) (fs : FS) (st : YepState)
    (file handle content : List Nat) (hid : Nat)
    (hpath : st.yep_file_path = some file)
    (hfile : st.yep_file = some hid)
    (hcont : handleContent st.openHandles hid = some content) :
    (_yep_seek_header content st.file_entry_count handle = none
      ↔ ∀ j, j < st.file_entry_count → recName content j ≠ handle)
    ∧ ((∀ j, j < st.file_entry_count → recName content j ≠ handle) →
        yep_extract_data z fs st file handle = (CResult.ret none, st))
    ∧ (∀ i, i < st.file_entry_count → recName content i = handle →
        (∀ j, j < i → recName content j ≠ handle) →
        _yep_seek_header content st.file_entry_count handle
          = some (recordAt content i)) := by
  refine ⟨seek_none_iff content handle st.file_entry_count, ?_, ?_⟩
  · intro hall
    rw [yep_extract_data_open z fs st file handle hid content hpath hfile hcont]
    rw [(seek_none_iff content handle st.file_entry_count).mpr hall]
  · intro i hi hmatch hmin
    exact seekHeaderAux_found content handle st.file_entry_count 0 i
      (Nat.zero_le i) (by omega) hmatch
      (fun j _ hji => hmin j hji)

/-- C7 witness: a one-record archive holding only the name `"x"`,
queried for `"q"`. -/
theorem claim_C7_witness :
    ((YepState.mk (some [70]) (some 0) 1 1
          [(0, [1, 1, 0] ++ nameSlot64 [120] ++ List.replicate 14 0)]
          1).yep_file_path = some [70]
      ∧ (YepState.mk (some [70]) (some 0) 1 1
          [(0, [1, 1, 0] ++ nameSlot64 [120] ++ List.replicate 14 0)]
          1).yep_file = some 0
      ∧ handleContent (YepState.mk (some [70]) (some 0) 1 1
          [(0, [1, 1, 0] ++ nameSlot64 [120] ++ List.replicate 14 0)]
          1).openHandles 0
        = some ([1, 1, 0] ++ nameSlot64 [120] ++ List.replicate 14 0))
    ∧ ((∀ j, j < (YepState.mk (some [70]) (some 0) 1 1
          [(0, [1, 1, 0] ++ nameSlot64 [120] ++ List.replicate 14 0)]
          1).file_entry_count
          → recName ([1, 1, 0] ++ nameSlot64 [120] ++ List.replicate 14 0) j
              ≠ [113]) →
        yep_extract_data idZlib (fun _ => none)
            (YepState.mk (some [70]) (some 0) 1 1
              [(0, [1, 1, 0] ++ nameSlot64 [120] ++ List.replicate 14 0)] 1)
            [70] [113]
          = (CResult.ret none,
              YepState.mk (some [70]) (some 0) 1 1
                [(0, [1, 1, 0] ++ nameSlot64 [120] ++ List.replicate 14 0)]
                1)) :=
  ⟨⟨rfl, rfl, by decide⟩,
    (claim_C7_notfound idZlib (fun _ => none)
      (YepState.mk (some [70]) (some 0) 1 1
        [(0, [1, 1, 0] ++ nameSlot64 [120] ++ List.replicate 14 0)] 1)
      [70] [113] ([1, 1, 0] ++ nameSlot64 [120] ++ List.replicate 14 0) 0
      rfl rfl (by decide)).2.1⟩

/-- C3 counterexample: opening the archive `[2, 1, 0]` (version byte 2,
entry count 1) fails as claimed, but afterwards the stream is still open
(`yep_file` is not null), the path is cached, and the read entry count
and version remain stored — partial state IS retained, contradicting the
claim. -/
theorem claim_C3_counterexample :
    (_yep_open_file (fun q => if q = [65] then some [2, 1, 0] else none)
        YepState.init [65]).1 = false
    ∧ (_yep_open_file (fun q => if q = [65] then some [2, 1, 0] else none)
        YepState.init [65]).2.yep_file ≠ none
    ∧ (_yep_open_file (fun q => if q = [65] then some [2, 1, 0] else none)
        YepState.init [65]).2.yep_file_path ≠ none
    ∧ (_yep_open_file (fun q => if q = [65] then some [2, 1, 0] else none)
        YepState.init [65]).2.file_entry_count ≠ 0
    ∧ (_yep_open_file (fun q => if q = [65] then some [2, 1, 0] else none)
        YepState.init [65]).2.file_version_number ≠ 0
    ∧ (_yep_open_file (fun q => if q = [65] then some [2, 1, 0] else none)
        YepState.init [65]).2.openHandles ≠ [] := by
  decide

/-- C3 amended: opening an archive whose stored version byte differs
from the supported version fails (returns false) after reading both the
version and the entry count, but retains partial state: the newly opened
stream stays open and cached in `yep_file`, the path is cached, and the
read `entry_count` and version are stored in the globals. -/
theorem claim_C3_amended (fs : FS) (st : YepState) (file content : List Nat)
    (hpath : st.yep_file_path ≠ some file)
    (hfs : fs file = some content)
    (hlen : 3 ≤ content.length)
    (hver : content.headD 0 ≠ YEP_CURRENT_FORMAT_VERSION) :
    _yep_open_file fs st file
      = (false,
          { yep_file_path := some file
            yep_file := some st.nextHandle
            file_entry_count := deLE (readBytes content 1 2)
            file_version_number := content.headD 0
            openHandles := st.openHandles ++ [(st.nextHandle, content)]
            nextHandle := st.nextHandle + 1 }) := by
  simp only [_yep_open_file, hfs]
  rw [if_neg hpath]
  have h1 : content.length ≥ 1 := by omega
  have hver' : content.head?.getD 0 ≠ YEP_CURRENT_FORMAT_VERSION := by
    rw [← List.headD_eq_head?_getD]
    exact hver
  simp [h1, hlen, hver']

/-- C3 amended witness: the amended behaviour at the concrete
counterexample input. -/
theorem claim_C3_amended_witness :
    ((YepState.init.yep_file_path ≠ some [65]
        ∧ (fun q => if q = [65] then some [2, 1, 0] else none) ([65] : List Nat)
            = some [2, 1, 0]
        ∧ 3 ≤ ([2, 1, 0] : List Nat).length
        ∧ ([2, 1, 0] : List Nat).headD 0 ≠ YEP_CURRENT_FORMAT_VERSION)
      ∧ _yep_open_file (fun q => if q = [65] then some [2, 1, 0] else none)
          YepState.init [65]
        = (false,
            { yep_file_path := some [65]
              yep_file := some YepState.init.nextHandle
              file_entry_count := deLE (readBytes [2, 1, 0] 1 2)
              file_version_number := ([2, 1, 0] : List Nat).headD 0
              openHandles := YepState.init.openHandles
                ++ [(YepState.init.nextHandle, [2, 1, 0])]
              nextHandle := YepState.init.nextHandle + 1 })) :=
  ⟨⟨by decide, by decide, by decide, by decide⟩,
    claim_C3_amended (fun q => if q = [65] then some [2, 1, 0] else none)
      YepState.init [65] [2, 1, 0] (by decide) (by decide) (by decide)
      (by decide)⟩

/-- C4 counterexample: two successful opens of different paths leave two
streams in the OS open-file table — the first handle is never closed, so
the subsystem does not maintain "at most one open archive", and the open
of the second path did not close the previous handle. -/
theorem claim_C4_counterexample :
    ((_yep_open_file
        (fun q => if q = [65] then some [1, 0, 0]
                  else if q = [66] then some [1, 0, 0] else none)
        YepState.init [65]).1 = true)
    ∧ ((_yep_open_file
        (fun q => if q = [65] then some [1, 0, 0]
                  else if q = [66] then some [1, 0, 0] else none)
        (_yep_open_file
          (fun q => if q = [65] then some [1, 0, 0]
                    else if q = [66] then some [1, 0, 0] else none)
          YepState.init [65]).2 [66]).1 = true)
    ∧ ((_yep_open_file
        (fun q => if q = [65] then some [1, 0, 0]
                  else if q = [66] then some [1, 0, 0] else none)
        (_yep_open_file
          (fun q => if q = [65] then some [1, 0, 0]
                    else if q = [66] then some [1, 0, 0] else none)
          YepState.init [65]).2 [66]).2.openHandles.length = 2)
    ∧ ((0, [1, 0, 0]) ∈ (_yep_open_file
        (fun q => if q = [65] then some [1, 0, 0]
                  else if q = [66] then some [1, 0, 0] else none)
        (_yep_open_file
          (fun q => if q = [65] then some [1, 0, 0]
                    else if q = [66] then some [1, 0, 0] else none)
          YepState.init [65]).2 [66]).2.openHandles) := by
  decide

/-- C4 amended: an open targeting the currently cached path reuses the
handle with no reopen and no state change; an open targeting a different
readable path opens a new stream and redirects `yep_file` to it, but
does NOT close the previous stream — every previously opened handle
remains in the OS table (the old handle is leaked, not closed). -/
theorem claim_C4_amended (fs : FS) (st : YepState) (file : List Nat) :
    (st.yep_file_path = some file → _yep_open_file fs st file = (true, st))
    ∧ (st.yep_file_path ≠ some file →
        ∀ content, fs file = some content →
          (_yep_open_file fs st file).2.openHandles
              = st.openHandles ++ [(st.nextHandle, content)]
            ∧ (_yep_open_file fs st file).2.yep_file = some st.nextHandle) := by
  constructor
  · intro hpath
    simp [_yep_open_file, hpath]
  · intro hpath content hfs
    simp only [_yep_open_file, hfs]
    rw [if_neg hpath]
    by_cases hv : (if content.length ≥ 1 then content.headD 0
        else st.file_version_number) ≠ YEP_CURRENT_FORMAT_VERSION
    · rw [if_pos hv]
      exact ⟨rfl, rfl⟩
    · rw [if_neg hv]
      exact ⟨rfl, rfl⟩

/-- C4 amended witness: reuse on the cached path at a concrete state,
and the leak-and-replace behaviour on a fresh path. -/
theorem claim_C4_amended_witness :
    ((YepState.mk (some [65]) (some 0) 0 1 [(0, [1, 0, 0])] 1).yep_file_path
        = some [65] →
      _yep_open_file (fun q => if q = [65] then some [1, 0, 0] else none)
          (YepState.mk (some [65]) (some 0) 0 1 [(0, [1, 0, 0])] 1) [65]
        = (true, YepState.mk (some [65]) (some 0) 0 1 [(0, [1, 0, 0])] 1)) :=
  (claim_C4_amended (fun q => if q = [65] then some [1, 0, 0] else none)
    (YepState.mk (some [65]) (some 0) 0 1 [(0, [1, 0, 0])] 1) [65]).1

/-- C10: after a successful open of path `A`, a failed open of a
different unreadable path `B` leaves the cached path at `A` while the
stream global becomes the null stream; a subsequent open of `A` then
succeeds through the same-path reuse check without reopening anything,
and any extraction attempt dereferences the null stream (undefined
behavior). -/
theorem claim_C10_stale_path (fs : FS) (st : YepState) (A B cA : List Nat)
    (hApath : st.yep_file_path ≠ some A)
    (hfsA : fs A = some cA)
    (hver : cA.headD 0 = YEP_CURRENT_FORMAT_VERSION)
    (hlen : 3 ≤ cA.length)
    (hfsB : fs B = none)
    (hAB : A ≠ B) :
    (_yep_open_file fs st A).1 = true
    ∧ (_yep_open_file fs (_yep_open_file fs st A).2 B).1 = false
    ∧ (_yep_open_file fs (_yep_open_file fs st A).2 B).2.yep_file_path
        = some A
    ∧ (_yep_open_file fs (_yep_open_file fs st A).2 B).2.yep_file = none
    ∧ _yep_open_file fs (_yep_open_file fs (_yep_open_file fs st A).2 B).2 A
        = (true, (_yep_open_file fs (_yep_open_file fs st A).2 B).2)
    ∧ ∀ z handle,
        (yep_extract_data z fs
          (_yep_open_file fs (_yep_open_file fs st A).2 B).2 A handle).1
          = CResult.undef := by
  have hopen := open_fresh fs st A cA hApath hfsA hver hlen
  rw [hopen]
  have hABs : (some A : Option (List Nat)) ≠ some B := by
    intro h
    exact hAB (Option.some.injEq A B ▸ h)
  have hopenB : _yep_open_file fs
      { yep_file_path := some A
        yep_file := some st.nextHandle
        file_entry_count := deLE (readBytes cA 1 2)
        file_version_number := YEP_CURRENT_FORMAT_VERSION
        openHandles := st.openHandles ++ [(st.nextHandle, cA)]
        nextHandle := st.nextHandle + 1 } B
      = (false,
          { yep_file_path := some A
            yep_file := none
            file_entry_count := deLE (readBytes cA 1 2)
            file_version_number := YEP_CURRENT_FORMAT_VERSION
            openHandles := st.openHandles ++ [(st.nextHandle, cA)]
            nextHandle := st.nextHandle + 1 }) := by
    simp [_yep_open_file, hfsB, hABs]
  rw [hopenB]
  refine ⟨rfl, rfl, rfl, rfl, ?_, ?_⟩
  · simp [_yep_open_file]
  · intro z handle
    simp [yep_extract_data, _yep_open_file]

/-- C10 witness: the stale-path scenario at concrete paths and a
concrete valid archive. -/
theorem claim_C10_witness :
    ((YepState.init.yep_file_path ≠ some [65]
        ∧ (fun q => if q = [65] then some [1, 0, 0] else none) ([65] : List Nat)
            = some [1, 0, 0]
        ∧ ([1, 0, 0] : List Nat).headD 0 = YEP_CURRENT_FORMAT_VERSION
        ∧ 3 ≤ ([1, 0, 0] : List Nat).length
        ∧ (fun q => if q = [65] then some [1, 0, 0] else none) ([66] : List Nat)
            = none
        ∧ ([65] : List Nat) ≠ [66])
      ∧ (_yep_open_file (fun q => if q = [65] then some [1, 0, 0] else none)
          (_yep_open_file (fun q => if q = [65] then some [1, 0, 0] else none)
            YepState.init [65]).2 [66]).2.yep_file_path = some [65]
      ∧ (_yep_open_file (fun q => if q = [65] then some [1, 0, 0] else none)
          (_yep_open_file (fun q => if q = [65] then some [1, 0, 0] else none)
            YepState.init [65]).2 [66]).2.yep_file = none) :=
  ⟨⟨by decide, by decide, by decide, by decide, by decide, by decide⟩,
    (claim_C10_stale_path (fun q => if q = [65] then some [1, 0, 0] else none)
      YepState.init [65] [66] [1, 0, 0] (by decide) (by decide) (by decide)
      (by decide) (by decide) (by decide)).2.2.1,
    (claim_C10_stale_path (fun q => if q = [65] then some [1, 0, 0] else none)
      YepState.init [65] [66] [1, 0, 0] (by decide) (by decide) (by decide)
      (by decide) (by decide) (by decide)).2.2.2.1⟩

/-- C6: the pack list is exactly the walked regular files whose relative
path plus terminator fits the 64-byte slot (in reverse discovery order):
an over-long file is excluded while the walk continues, a fitting file is
included; and no record of the packed archive carries an over-long
relative name. -/
theorem claim_C6_name_length (z : ZlibModel) (hz : z.valid) (tree : List DirEnt)
    (hnz : ∀ n ∈ discList [] tree, 0 ∉ n.name)
    (hs : sizesOk z (walkList [] tree [])) :
    walkList [] tree []
        = ((discList [] tree).filter (fun n => n.name.length + 1 ≤ 64)).reverse
      ∧ ∀ n ∈ discList [] tree, n.name.length + 1 > 64 →
          ∀ i, i < (walkList [] tree []).length →
            recName (yep_pack_directory z tree) i ≠ n.name := by
  have hwlk := walkList_eq [] tree []
  simp only [List.append_nil] at hwlk
  refine ⟨hwlk, ?_⟩
  intro n hn hlong i hi
  have hsub : ∀ m ∈ walkList [] tree [], m ∈ discList [] tree
      ∧ m.name.length + 1 ≤ 64 := by
    intro m hm
    rw [hwlk, List.mem_reverse, List.mem_filter] at hm
    exact ⟨hm.1, by simpa using hm.2⟩
  have hn63 : ∀ m ∈ walkList [] tree [], m.name.length ≤ 63 := by
    intro m hm
    have := (hsub m hm).2
    omega
  have hnz' : ∀ m ∈ walkList [] tree [], 0 ∉ m.name :=
    fun m hm => hnz m (hsub m hm).1
  have hrn : recName (yep_pack_directory z tree) i
      = (walkList [] tree [])[i].name := by
    show recName (packArchive z (walkList [] tree [])) i = _
    exact recName_packArchive z hz _ hn63 hnz' hs i hi
  rw [hrn]
  intro heq
  have h63 : (walkList [] tree [])[i].name.length ≤ 63 :=
    hn63 _ (List.getElem_mem hi)
  rw [heq] at h63
  omega

/-- C6 witness: a tree with one 64-byte file name (rejected) and one
1-byte file name (kept). -/
theorem claim_C6_witness :
    (((∀ n ∈ discList []
          [DirEnt.file (List.replicate 64 97) [1], DirEnt.file [98] [2]],
          0 ∉ n.name)
        ∧ sizesOk idZlib (walkList []
          [DirEnt.file (List.replicate 64 97) [1], DirEnt.file [98] [2]] []))
      ∧ walkList []
          [DirEnt.file (List.replicate 64 97) [1], DirEnt.file [98] [2]] []
        = ((discList []
            [DirEnt.file (List.replicate 64 97) [1], DirEnt.file [98] [2]]).filter
              (fun n => n.name.length + 1 ≤ 64)).reverse) := by
  have hd : discList []
      [DirEnt.file (List.replicate 64 97) [1], DirEnt.file [98] [2]]
      = [⟨List.replicate 64 97, [1]⟩, ⟨[98], [2]⟩] := by
    simp [discList, relOf]
  have hw : walkList []
      [DirEnt.file (List.replicate 64 97) [1], DirEnt.file [98] [2]] []
      = [⟨[98], [2]⟩] := by
    simp [walkList, relOf]
  refine ⟨⟨?_, ?_⟩, ?_⟩
  · rw [hd]
    decide
  · rw [hw]
    exact ⟨by decide, by decide⟩
  · exact (claim_C6_name_length idZlib idZlib_valid
      [DirEnt.file (List.replicate 64 97) [1], DirEnt.file [98] [2]]
      (by rw [hd]; decide)
      (by rw [hw]; exact ⟨by decide, by decide⟩)).1

/-- C1: packing a directory tree whose regular files all have distinct,
slot-fitting relative names and then extracting any of them by its
relative name returns content byte-identical to the source file, whether
the entry was stored raw or deflate-compressed. -/
theorem claim_C1_roundtrip (z : ZlibModel) (hz : z.valid) (tree : List DirEnt)
    (P rel c : List Nat)
    (hfit : ∀ n ∈ discList [] tree, n.name.length + 1 ≤ 64)
    (hnz : ∀ n ∈ discList [] tree, 0 ∉ n.name)
    (hnodup : ((discList [] tree).map PackNode.name).Nodup)
    (hcount : (discList [] tree).length < 65536)
    (hs : sizesOk z (discList [] tree))
    (hmem : (⟨rel, c⟩ : PackNode) ∈ discList [] tree) :
    (yep_extract_data z
        (fun q => if q = P then some (yep_pack_directory z tree) else none)
        YepState.init P rel).1
      = CResult.ret (some c) := by
  have hwlk : walkList [] tree [] = (discList [] tree).reverse := by
    rw [walkList_eq]
    simp only [List.append_nil]
    congr 1
    apply List.filter_eq_self.mpr
    intro a ha
    simpa using hfit a ha
  have hpd : yep_pack_directory z tree
      = packArchive z ((discList [] tree).reverse) := by
    show packArchive z (walkList [] tree []) = _
    rw [hwlk]
  rw [hpd]
  apply extract_packed z hz ((discList [] tree).reverse) P rel c
  · intro n hn
    have := hfit n (List.mem_reverse.mp hn)
    omega
  · intro n hn
    exact hnz n (List.mem_reverse.mp hn)
  · rw [List.map_reverse]
    exact List.nodup_reverse.mpr hnodup
  · rw [List.length_reverse]
    exact hcount
  · constructor
    · intro n hn
      exact hs.1 n (List.mem_reverse.mp hn)
    · rw [List.length_reverse]
      have hsl : storedLens z ((discList [] tree).reverse)
          = (storedLens z (discList [] tree)).reverse := by
        simp [storedLens, List.map_reverse]
      rw [hsl, List.sum_reverse]
      exact hs.2
  · exact List.mem_reverse.mpr hmem

/-- C1 witness: a one-file tree packed and extracted back, byte for
byte. -/
theorem claim_C1_witness :
    (((∀ n ∈ discList [] [DirEnt.file [97] [9, 8]], n.name.length + 1 ≤ 64)
        ∧ (∀ n ∈ discList [] [DirEnt.file [97] [9, 8]], 0 ∉ n.name)
        ∧ ((discList [] [DirEnt.file [97] [9, 8]]).map PackNode.name).Nodup
        ∧ (discList [] [DirEnt.file [97] [9, 8]]).length < 65536
        ∧ sizesOk idZlib (discList [] [DirEnt.file [97] [9, 8]])
        ∧ (⟨[97], [9, 8]⟩ : PackNode) ∈ discList [] [DirEnt.file [97] [9, 8]])
      ∧ (yep_extract_data idZlib
          (fun q => if q = [80]
            then some (yep_pack_directory idZlib [DirEnt.file [97] [9, 8]])
            else none)
          YepState.init [80] [97]).1
        = CResult.ret (some [9, 8])) := by
  have hd : discList [] [DirEnt.file [97] [9, 8]] = [⟨[97], [9, 8]⟩] := by
    simp [discList, relOf]
  refine ⟨⟨?_, ?_, ?_, ?_, ?_, ?_⟩, ?_⟩
  · rw [hd]
    decide
  · rw [hd]
    decide
  · rw [hd]
    decide
  · rw [hd]
    decide
  · rw [hd]
    exact ⟨by decide, by decide⟩
  · rw [hd]
    decide
  · exact claim_C1_roundtrip idZlib idZlib_valid [DirEnt.file [97] [9, 8]]
      [80] [97] [9, 8] (by rw [hd]; decide) (by rw [hd]; decide)
      (by rw [hd]; decide) (by rw [hd]; decide)
      (by rw [hd]; exact ⟨by decide, by decide⟩) (by rw [hd]; decide)

end Yep
